import Mathlib

/-!
Verification of the duetto-detector pipeline against its specification.

The Python sources under scrutiny are shallowly embedded below:
strings are `List Char`, machine floats for durations are modelled as
integer clock differences, and effectful code (browser I/O, network
events, external API calls) is modelled by explicit event lists or
outcome oracles.  Every definition is translated from the source file it
names; the only exceptions are definitions whose doc comment starts with
`Modelled from the spec:` (code referenced by the sources but absent from
the source tree) and definitions whose doc comment says they follow the
words of a claim (used to compare a claim against the code).
-/

/-! ### Basic string machinery (Python `str.lower`, `in`, `startswith`) -/

/-- Lowercase one character, as Python `str.lower` does for ASCII. -/
def lowerChar (c : Char) : Char :=
  if 'A' ≤ c ∧ c ≤ 'Z' then Char.ofNat (c.toNat + 32) else c

/-- Lowercase a string (`s.lower()` in Python). -/
def lowerStr (s : List Char) : List Char := s.map lowerChar

/-- Boolean test that `p` occurs at the start of `s`. -/
def hasPre : List Char → List Char → Bool
  | [], _ => true
  | _ :: _, [] => false
  | c :: cs, d :: ds => c == d && hasPre cs ds

/-- Boolean substring test, Python `p in s`. -/
def containsSub (pat : List Char) : List Char → Bool
  | [] => hasPre pat []
  | c :: rest => hasPre pat (c :: rest) || containsSub pat rest

/-- Case-insensitive substring test, Python `p in s.lower()` for a lowercase
pattern `p`. -/
def containsLower (pat s : List Char) : Bool := containsSub pat (lowerStr s)

/-! ### Data model (`models.py`) -/

/-- Entry recorded for one network request (`models.NetworkRequest` and the
dict built by `NetworkMonitor._on_request`; both carry url, method,
resource type and a timestamp). -/
structure NetworkRequest where
  url : List Char
  method : List Char
  resource_type : List Char
  timestamp : Nat
deriving DecidableEq

/-- One discovered booking-link candidate (`models.BookingLinkInfo`). -/
structure BookingLinkInfo where
  text : List Char
  href : List Char
  link_type : List Char
  detection_method : List Char
  opens_in : List Char
deriving DecidableEq

/-- One detected competitor vendor (`models.CompetitorRMSDetection`). -/
structure CompetitorRMSDetection where
  vendor : List Char
  category : List Char
  evidence : List (List Char)
deriving DecidableEq

/-- The `models.DuettoProduct` enum. -/
inductive DuettoProduct where
  | PIXEL
  | GAMECHANGER
  | NONE
deriving DecidableEq

/-! ### Network monitor (`detector/network_monitor.py`) -/

/-- `NetworkMonitor.DUETTO_PIXEL_PATTERNS`. -/
def DUETTO_PIXEL_PATTERNS : List (List Char) :=
  [("capture.duettoresearch.com").data,
   ("duettoresearch.com/capture").data,
   ("duettoresearch.com/pixel").data,
   ("duettoresearch.com/track").data]

/-- `NetworkMonitor.DUETTO_DOMAIN_PATTERNS`. -/
def DUETTO_DOMAIN_PATTERNS : List (List Char) :=
  [("duettoresearch.com").data, ("duettocloud.com").data]

/-- `NetworkMonitor.GAMECHANGER_PATTERNS`. -/
def GAMECHANGER_PATTERNS : List (List Char) :=
  [("gamechanger.duetto").data,
   ("gc.duettoresearch.com").data,
   ("app.duettoresearch.com").data,
   ("duettocloud.com/gamechanger").data]

/-- State owned by one `NetworkMonitor` instance.  The `csp_headers` field
is referenced by `duetto_analyzer.analyze_hotel` but its capture code is
absent from the source tree; it is modelled from the spec (§4.7). -/
structure NetworkMonitor where
  all_requests : List NetworkRequest
  duetto_requests : List NetworkRequest
  console_logs : List (List Char)
  csp_headers : List (List Char)
deriving DecidableEq

/-- `NetworkMonitor.__init__`: all capture lists start empty. -/
def NetworkMonitor.init : NetworkMonitor :=
  { all_requests := [], duetto_requests := [], console_logs := [], csp_headers := [] }

/-- Does the url match one of the Duetto domain patterns
(the test in `_on_request`)? -/
def duettoDomainHit (r : NetworkRequest) : Bool :=
  DUETTO_DOMAIN_PATTERNS.any (fun p => containsLower p r.url)

/-- `NetworkMonitor._on_request`: append the entry to `all_requests`, and
additionally to `duetto_requests` when a Duetto domain pattern occurs in
the lowercased url. -/
def NetworkMonitor.on_request (m : NetworkMonitor) (r : NetworkRequest) : NetworkMonitor :=
  { m with
    all_requests := m.all_requests ++ [r],
    duetto_requests :=
      if duettoDomainHit r then m.duetto_requests ++ [r] else m.duetto_requests }

/-- `NetworkMonitor._on_console`: append the message text. -/
def NetworkMonitor.on_console (m : NetworkMonitor) (msg : List Char) : NetworkMonitor :=
  { m with console_logs := m.console_logs ++ [msg] }

/-- Modelled from the spec: the monitor also records every
Content-Security-Policy response header it observes into an append-only
`csp_headers` list (spec §4.7; the capture code is referenced by
`analyze_hotel` but missing from the source tree). -/
def NetworkMonitor.on_response (m : NetworkMonitor) (cspHeader : Option (List Char)) :
    NetworkMonitor :=
  match cspHeader with
  | some h => { m with csp_headers := m.csp_headers ++ [h] }
  | none => m

/-- One observable page event during a scan. -/
inductive MonitorEvent where
  | request (r : NetworkRequest)
  | console (msg : List Char)
  | response (cspHeader : Option (List Char))

/-- Dispatch one event to the corresponding monitor handler. -/
def applyEvent (m : NetworkMonitor) : MonitorEvent → NetworkMonitor
  | .request r => m.on_request r
  | .console msg => m.on_console msg
  | .response h => m.on_response h

/-- The monitor state after a sequence of page events. -/
def runMonitor (events : List MonitorEvent) : NetworkMonitor :=
  events.foldl applyEvent NetworkMonitor.init

/-- Does the url match one of the pixel-endpoint patterns? -/
def duettoPixelHit (r : NetworkRequest) : Bool :=
  DUETTO_PIXEL_PATTERNS.any (fun p => containsLower p r.url)

/-- Does the url match one of the GameChanger network patterns? -/
def gamechangerHit (r : NetworkRequest) : Bool :=
  GAMECHANGER_PATTERNS.any (fun p => containsLower p r.url)

/-- Property `NetworkMonitor.duetto_pixel_detected`. -/
def NetworkMonitor.duetto_pixel_detected (m : NetworkMonitor) : Bool :=
  m.duetto_requests.any duettoPixelHit

/-- Property `NetworkMonitor.gamechanger_in_network`. -/
def NetworkMonitor.gamechanger_in_network (m : NetworkMonitor) : Bool :=
  m.duetto_requests.any gamechangerHit

/-- Property `NetworkMonitor.pixel_requests`. -/
def NetworkMonitor.pixel_requests (m : NetworkMonitor) : List NetworkRequest :=
  m.duetto_requests.filter duettoPixelHit

/-- Modelled from the spec: `duetto_in_csp` is referenced by
`analyze_hotel` but missing from `network_monitor.py`.  Per spec §4.7 it
holds when some captured CSP header advertises a vendor domain, matched
with the same case-insensitive substring patterns the file uses for
headers (`DUETTO_DOMAIN_PATTERNS`, cf. the `csp_header` proof-snippet
filter in `analyze_hotel`). -/
def NetworkMonitor.duetto_in_csp (m : NetworkMonitor) : Bool :=
  m.csp_headers.any (fun h => DUETTO_DOMAIN_PATTERNS.any (fun p => containsLower p h))

/-- Invariant tying `duetto_requests` to `all_requests` on every reachable
monitor state. -/
def monitorInv (m : NetworkMonitor) : Prop :=
  m.duetto_requests = m.all_requests.filter duettoDomainHit

/-- The concrete scenario request from the spec. -/
def pixelScenarioRequest : NetworkRequest :=
  { url := ("https://capture.duettoresearch.com/track?x=1").data,
    method := ("GET").data, resource_type := [], timestamp := 0 }

/-! ### Scan result data (`models.py DuettoDetectionResult`) -/

/-- The fields of `models.DuettoDetectionResult` that the scan body mutates
while a scan runs.  The identity fields (`hotel_name`, `website_url`) and
the duration, which `analyze_hotel` alone assigns, live in
`DuettoDetectionResult` below. -/
structure ScanData where
  booking_links_found : List BookingLinkInfo
  booking_link_followed : Option BookingLinkInfo
  booking_engine_url : List Char
  duetto_pixel_detected : Bool
  pixel_requests : List NetworkRequest
  gamechanger_detected : Bool
  gamechanger_evidence : List (List Char)
  duetto_products : List DuettoProduct
  confidence : List Char
  proof_snippets : List (List Char)
  competitor_rms : List CompetitorRMSDetection
  pages_analyzed : List (List Char)
  all_captured_domains : List (List Char)
  console_logs : List (List Char)
  errors : List (List Char)
  screenshot_path : List Char
deriving DecidableEq

/-- Default field values of `models.DuettoDetectionResult`. -/
def ScanData.init : ScanData :=
  { booking_links_found := [], booking_link_followed := none,
    booking_engine_url := [], duetto_pixel_detected := false,
    pixel_requests := [], gamechanger_detected := false,
    gamechanger_evidence := [], duetto_products := [],
    confidence := ("none").data, proof_snippets := [], competitor_rms := [],
    pages_analyzed := [], all_captured_domains := [], console_logs := [],
    errors := [], screenshot_path := [] }

/-! ### Confidence scorer (`duetto_analyzer._calculate_confidence`) -/

/-- The `csp_only` test at the top of `_calculate_confidence`: some recorded
error string contains the (case-sensitive) substring `CSP allowlist`. -/
def cspOnly (r : ScanData) : Bool :=
  r.errors.any (fun e => containsSub (("CSP allowlist").data) e)

/-- The raw score accumulated by `_calculate_confidence`: starts at 0, adds
1 or 3 for the pixel flag depending on `csp_only`, 3 for the GameChanger
flag, the evidence-list length when the list is nonempty, 1 for a followed
booking link, and subtracts 1 when any error was recorded. -/
def calculate_confidence_score (r : ScanData) : Int :=
  (if r.duetto_pixel_detected then (if cspOnly r then 1 else 3) else 0)
  + (if r.gamechanger_detected then 3 else 0)
  + (if r.gamechanger_evidence.isEmpty then 0 else (r.gamechanger_evidence.length : Int))
  + (if r.booking_link_followed.isSome then 1 else 0)
  - (if r.errors.isEmpty then 0 else 1)

/-- `duetto_analyzer._calculate_confidence`. -/
def calculate_confidence (r : ScanData) : List Char :=
  if cspOnly r then
    (if 2 ≤ calculate_confidence_score r then ("medium").data else ("low").data)
  else if 4 ≤ calculate_confidence_score r then ("high").data
  else if 2 ≤ calculate_confidence_score r then ("medium").data
  else if 1 ≤ calculate_confidence_score r then ("low").data
  else ("none").data

/-- A concrete result carrying ten evidence strings plus the CSP-only
caveat (the example in the claim). -/
def exampleCspResult : ScanData :=
  { ScanData.init with
    duetto_pixel_detected := true,
    gamechanger_detected := true,
    gamechanger_evidence :=
      [("e1").data, ("e2").data, ("e3").data, ("e4").data, ("e5").data,
       ("e6").data, ("e7").data, ("e8").data, ("e9").data, ("e10").data],
    errors :=
      [("Pixel detected via CSP allowlist (pixel did not fire in headless mode)").data] }

/-- Definition following the words of claim C4: the score allegedly adds
the count of distinct DOM/source evidence strings.  Used only to compare
the claim against the code, which adds the plain list length. -/
def claimC4Score (r : ScanData) : Int :=
  (if r.duetto_pixel_detected then 3 else 0)
  + (if r.gamechanger_detected then 3 else 0)
  + (r.gamechanger_evidence.dedup.length : Int)
  + (if r.booking_link_followed.isSome then 1 else 0)
  - (if r.errors.isEmpty then 0 else 1)

/-- Definition following the words of claim C4: the confidence level the
claim predicts for a result without the CSP-only caveat. -/
def claimC4Confidence (r : ScanData) : List Char :=
  if 4 ≤ claimC4Score r then ("high").data
  else if 2 ≤ claimC4Score r then ("medium").data
  else if claimC4Score r = 1 then ("low").data
  else ("none").data

/-- The score of the claim as amended: the count of evidence strings is
the plain length of the evidence list, duplicates included, exactly as
`_calculate_confidence` computes it. -/
def claimC4AmendedScore (r : ScanData) : Int :=
  (if r.duetto_pixel_detected then 3 else 0)
  + (if r.gamechanger_detected then 3 else 0)
  + (r.gamechanger_evidence.length : Int)
  + (if r.booking_link_followed.isSome then 1 else 0)
  - (if r.errors.isEmpty then 0 else 1)

/-- A result whose evidence list repeats one string four times: the code
scores it 4 (`high`) while the claim predicts a distinct count of 1
(`low`). -/
def dupEvidenceResult : ScanData :=
  { ScanData.init with
    gamechanger_evidence := [("dup").data, ("dup").data, ("dup").data, ("dup").data] }

/-- A caveat-free result with the pixel flag and one evidence string:
score 4, confidence `high`. -/
def highExampleResult : ScanData :=
  { ScanData.init with
    duetto_pixel_detected := true,
    gamechanger_evidence := [("script: duetto.js").data] }

/-! ### URL parsing (the subset of `urllib.parse` the sources use) -/

/-- Split a string at the first occurrence of `sep`; `none` when `sep`
does not occur (Python `s.split(sep, 1)` plus the membership test). -/
def splitFirst (sep : Char) : List Char → Option (List Char × List Char)
  | [] => none
  | c :: cs =>
    if c = sep then some ([], cs)
    else (splitFirst sep cs).map (fun p => (c :: p.1, p.2))

/-- Characters allowed in a URL scheme (`urllib.parse.scheme_chars`). -/
def schemeChar (c : Char) : Bool :=
  c.isAlpha || c.isDigit || c = '+' || c = '-' || c = '.'

/-- Characters that terminate the netloc portion of a URL. -/
def netlocChar (c : Char) : Bool := !(c = '/' || c = '?' || c = '#')

/-- The five components `urllib.parse.urlparse` returns.  The rarely-used
`params` component (the part of the last path segment after `;`) is kept
inside `path`; `urlunparse` re-joins path and params verbatim, so this
folding is observationally identity. -/
structure UrlParts where
  scheme : List Char
  netloc : List Char
  path : List Char
  query : List Char
  fragment : List Char
deriving DecidableEq

/-- The scheme extraction of `urlsplit`: a valid scheme is a nonempty
prefix before the first colon whose first character is a letter and whose
characters all lie in `scheme_chars`; it is lowercased on extraction. -/
def extractScheme (url : List Char) : List Char × List Char :=
  match splitFirst ':' url with
  | some (pre, post) =>
    match pre with
    | [] => ([], url)
    | c :: _ =>
      if c.isAlpha ∧ pre.all schemeChar then (lowerStr pre, post) else ([], url)
  | none => ([], url)

/-- The netloc extraction of `urlsplit`: after a leading `//`, up to the
next `/`, `?` or `#`. -/
def extractNetloc (rest : List Char) : List Char × List Char :=
  if rest.take 2 = ['/', '/'] then
    ((rest.drop 2).takeWhile netlocChar, (rest.drop 2).dropWhile netlocChar)
  else ([], rest)

/-- The fragment split of `urlsplit`: everything after the first `#`. -/
def extractFragment (rest2 : List Char) : List Char × List Char :=
  match splitFirst '#' rest2 with
  | some (a, b) => (a, b)
  | none => (rest2, [])

/-- The query split of `urlsplit`: everything after the first `?`. -/
def extractQuery (rest3 : List Char) : List Char × List Char :=
  match splitFirst '?' rest3 with
  | some (a, b) => (a, b)
  | none => (rest3, [])

/-- `urllib.parse.urlparse`: scheme, then netloc, then fragment, then
query, in the order `urlsplit` performs the splits. -/
def urlparse (url : List Char) : UrlParts :=
  let s := extractScheme url
  let n := extractNetloc s.2
  let f := extractFragment n.2
  let q := extractQuery f.1
  ⟨s.1, n.1, q.1, q.2, f.2⟩

/-- `urllib.parse.urlunparse` restricted to the same five components. -/
def urlunparse (p : UrlParts) : List Char :=
  let url := p.path
  let url :=
    if p.netloc ≠ [] ∨ url.take 2 = ['/', '/'] then
      ['/', '/'] ++ p.netloc ++ (if url ≠ [] ∧ url.take 1 ≠ ['/'] then '/' :: url else url)
    else url
  let url := if p.scheme ≠ [] then p.scheme ++ ':' :: url else url
  let url := if p.query ≠ [] then url ++ '?' :: p.query else url
  if p.fragment ≠ [] then url ++ '#' :: p.fragment else url

/-- Python string comparison (code-point lexicographic `<=`). -/
def lexLeB : List Char → List Char → Bool
  | [], _ => true
  | _ :: _, [] => false
  | a :: as2, b :: bs2 => a.toNat < b.toNat || (a = b && lexLeB as2 bs2)

/-- Property `NetworkMonitor.captured_domains`: the deduplicated netlocs
of all captured request urls, sorted (`sorted(set(...))` in Python; a
stable structural sort computes the same unique sorted arrangement). -/
def NetworkMonitor.captured_domains (m : NetworkMonitor) : List (List Char) :=
  List.insertionSort (fun a b => lexLeB a b = true)
    ((m.all_requests.map (fun r => (urlparse r.url).netloc)).dedup)

/-! ### Scan finalization (`duetto_analyzer.analyze_hotel`, network-level
checks after the three phases) -/

/-- The evidence string appended when a CSP header allowlists the vendor. -/
def cspAllowEvidence : List Char := ("CSP header allows *.duettoresearch.com").data

/-- The provenance-caveat error string recorded when the pixel is flagged
from a CSP allowlist only. -/
def cspCaveatMsg : List Char :=
  ("Pixel detected via CSP allowlist (pixel did not fire in headless mode)").data

/-- Finalize, step 1: copy the network-level pixel flag and the pixel
request list onto the result. -/
def finalizeStep1 (m : NetworkMonitor) (r : ScanData) : ScanData :=
  { r with duetto_pixel_detected := m.duetto_pixel_detected,
           pixel_requests := m.pixel_requests }

/-- Finalize, step 2: if the GameChanger flag is still false, take it from
the network traffic. -/
def finalizeStep2 (m : NetworkMonitor) (r : ScanData) : ScanData :=
  if r.gamechanger_detected then r
  else { r with gamechanger_detected := m.gamechanger_in_network }

/-- Finalize, step 3: the CSP-allowlist branch.  When a captured CSP
header advertises the vendor domain, append the allowlist evidence
string; if no pixel was detected, flag it as detected and record the
provenance caveat in the errors. -/
def finalizeStep3 (m : NetworkMonitor) (r : ScanData) : ScanData :=
  if m.duetto_in_csp then
    if r.duetto_pixel_detected then
      { r with gamechanger_evidence := r.gamechanger_evidence ++ [cspAllowEvidence] }
    else
      { r with gamechanger_evidence := r.gamechanger_evidence ++ [cspAllowEvidence],
               duetto_pixel_detected := true,
               errors := r.errors ++ [cspCaveatMsg] }
  else r

/-- Console log lines with direct Duetto references (CSP-violation noise
filtered out). -/
def duettoConsole (m : NetworkMonitor) : List (List Char) :=
  m.console_logs.filter (fun log =>
    containsLower (("duetto").data) log
    && !containsLower (("content security policy").data) log
    && !containsLower (("violates").data) log)

/-- Finalize, step 4: append up to five console-derived evidence strings. -/
def finalizeStep4 (m : NetworkMonitor) (r : ScanData) : ScanData :=
  if duettoConsole m = [] then r
  else { r with gamechanger_evidence :=
          r.gamechanger_evidence ++ ((duettoConsole m).take 5).map (fun l => ("console: ").data ++ l) }

/-- Finalize, step 5: build the product list, defaulting to `NONE`. -/
def finalizeStep5 (r : ScanData) : ScanData :=
  let prods := r.duetto_products
    ++ (if r.duetto_pixel_detected then [DuettoProduct.PIXEL] else [])
    ++ (if r.gamechanger_detected then [DuettoProduct.GAMECHANGER] else [])
  { r with duetto_products := if prods = [] then [DuettoProduct.NONE] else prods }

/-- Finalize, step 6: compute the confidence level from the result itself. -/
def finalizeStep6 (r : ScanData) : ScanData :=
  { r with confidence := calculate_confidence r }

/-- Finalize, step 7: captured domains and the console-log tail. -/
def finalizeStep7 (m : NetworkMonitor) (r : ScanData) : ScanData :=
  { r with all_captured_domains := m.captured_domains,
           console_logs := m.console_logs.take 50 }

/-- The proof-snippet list: pixel request urls, vendor-matching CSP
headers (truncated to 500 characters), then any evidence string not
already present and not itself the CSP-allowlist marker. -/
def proofSnippets (m : NetworkMonitor) (r : ScanData) : List (List Char) :=
  let proof := r.pixel_requests.map (fun pr => ("pixel_request: ").data ++ pr.url)
  let proof := proof ++
    (m.csp_headers.filter (fun csp =>
        DUETTO_DOMAIN_PATTERNS.any (fun p => containsLower p csp))).map
      (fun csp => ("csp_header: ").data ++
        (if 500 < csp.length then csp.take 500 ++ ("...").data else csp))
  r.gamechanger_evidence.foldl
    (fun acc ev =>
      if acc.contains ev || containsSub (("CSP header allows").data) ev then acc
      else acc ++ [ev])
    proof

/-- Finalize, step 8: store the proof snippets. -/
def finalizeStep8 (m : NetworkMonitor) (r : ScanData) : ScanData :=
  { r with proof_snippets := proofSnippets m r }

/-- The complete finalize block of `analyze_hotel` (source lines 246-299),
run after the three phases on the accumulated result. -/
def finalizeNetworkChecks (m : NetworkMonitor) (r : ScanData) : ScanData :=
  finalizeStep8 m (finalizeStep7 m (finalizeStep6 (finalizeStep5
    (finalizeStep4 m (finalizeStep3 m (finalizeStep2 m (finalizeStep1 m r)))))))

/-- A monitor that saw a vendor-allowlisting CSP header but no requests. -/
def exampleCspMonitor : NetworkMonitor :=
  { NetworkMonitor.init with
    csp_headers := [("default-src https: img-src *.duettoresearch.com").data] }

/-! ### Link ranking (`booking_link_finder.rank_booking_links`) -/

/-- The inner `score` function of `rank_booking_links`: a base score per
discovery method, tiered text bonuses (computed on the lowercased link
text), a new-tab bonus, and a concrete-href bonus. -/
def bookingLinkScore (link : BookingLinkInfo) : Int :=
  let s : Int := 0
  let s :=
    if link.detection_method = ("text_match").data ∨
        link.detection_method = ("firecrawl_llm").data then s + 100
    else if link.detection_method = ("ai_query").data then s + 95
    else if link.detection_method = ("web_search").data then s + 90
    else if link.detection_method = ("brand_crawl").data then s + 85
    else if link.detection_method = ("chain_pattern").data then s + 70
    else if link.detection_method = ("href_pattern").data then s + 50
    else if link.detection_method = ("iframe_src").data then s + 25
    else s
  let text_lower := lowerStr link.text
  let s :=
    if containsSub (("book now").data) text_lower then s + 50
    else if containsSub (("book").data) text_lower then s + 30
    else if containsSub (("reserve").data) text_lower then s + 30
    else if containsSub (("check avail").data) text_lower then s + 20
    else s
  let s := if link.opens_in = ("new_tab").data then s + 10 else s
  if link.href ≠ [] ∧ link.href ≠ ("#").data then s + 10 else s

/-- The comparison `rank_booking_links` sorts by: descending score. -/
def rankRel (a b : BookingLinkInfo) : Prop :=
  bookingLinkScore b ≤ bookingLinkScore a

instance : DecidableRel rankRel := fun _ _ => Int.decLe _ _

instance : IsTotal BookingLinkInfo rankRel :=
  ⟨fun a b => le_total (bookingLinkScore b) (bookingLinkScore a)⟩

instance : IsTrans BookingLinkInfo rankRel :=
  ⟨fun _ _ _ hab hbc => le_trans hbc hab⟩

/-- `rank_booking_links`: Python `sorted(links, key=score, reverse=True)`
is the stable sort placing higher scores first and keeping the original
order of equal scores; a stable structural sort by the descending-score
comparison computes exactly that arrangement. -/
def rank_booking_links (links : List BookingLinkInfo) : List BookingLinkInfo :=
  List.insertionSort rankRel links

/-- A candidate carrying only a discovery method, used to witness the
relative ordering of the base scores. -/
def methodOnlyLink (m : List Char) : BookingLinkInfo :=
  { text := [], href := [], link_type := ("link").data,
    detection_method := m, opens_in := ("same_window").data }

/-! ### Discovery cascade (`booking_link_finder.find_booking_links_with_fallback`) -/

/-- Outcome of invoking one discovery strategy: a candidate list (possibly
empty) or a raised exception. -/
inductive TierResult where
  | ok (links : List BookingLinkInfo)
  | exn (msg : List Char)
deriving DecidableEq

/-- The environment one cascade run sees: the credential/argument gates
tested by the source and an oracle giving the outcome each external
strategy call would produce.  Tier 5 (the in-page CSS heuristics of
`find_booking_links`) catches every per-element error internally and
always returns a plain list. -/
structure CascadeEnv where
  anthropic_api_key : Bool
  firecrawl_api_key : Bool
  city : Bool
  hotel_name : Bool
  ai_query : TierResult
  smart_scrape : TierResult
  web_search : TierResult
  brand_crawl : TierResult
  chain_patterns : TierResult
  selector_links : List BookingLinkInfo

/-- `has_apis = bool(settings.firecrawl_api_key and settings.anthropic_api_key)`. -/
def hasApis (env : CascadeEnv) : Bool := env.firecrawl_api_key && env.anthropic_api_key

/-- The outcome of the strategy call associated with tier `k` (0 = AI
query, 1 = smart scrape, 2 = web search, 3 = brand crawl, 4 = chain
patterns, 5 = in-page selectors). -/
def tierOutcome (env : CascadeEnv) : Nat → TierResult
  | 0 => env.ai_query
  | 1 => env.smart_scrape
  | 2 => env.web_search
  | 3 => env.brand_crawl
  | 4 => env.chain_patterns
  | _ => .ok env.selector_links

/-- One `try/except` tier of the cascade: a nonempty result returns
immediately; an empty result or an exception advances to `next`.  The
first component records which tiers were invoked, in order. -/
def tierStep (k : Nat) (res : TierResult) (next : List Nat × List BookingLinkInfo) :
    List Nat × List BookingLinkInfo :=
  match res with
  | .ok l => if l.isEmpty then (k :: next.1, next.2) else ([k], l)
  | .exn _ => (k :: next.1, next.2)

/-- Tier 5: the unconditional CSS-selector fallback. -/
def runTier5 (env : CascadeEnv) : List Nat × List BookingLinkInfo :=
  ([5], env.selector_links)

/-- Tier 4: chain patterns, gated on a nonempty hotel name. -/
def runTier4 (env : CascadeEnv) : List Nat × List BookingLinkInfo :=
  if env.hotel_name then tierStep 4 (tierOutcome env 4) (runTier5 env) else runTier5 env

/-- Tier 3: brand-site crawl, gated on the API keys and the hotel name. -/
def runTier3 (env : CascadeEnv) : List Nat × List BookingLinkInfo :=
  if hasApis env && env.hotel_name then tierStep 3 (tierOutcome env 3) (runTier4 env)
  else runTier4 env

/-- Tier 2: web search, gated on the API keys and the hotel name. -/
def runTier2 (env : CascadeEnv) : List Nat × List BookingLinkInfo :=
  if hasApis env && env.hotel_name then tierStep 2 (tierOutcome env 2) (runTier3 env)
  else runTier3 env

/-- Tier 1: smart scrape, gated on the API keys. -/
def runTier1 (env : CascadeEnv) : List Nat × List BookingLinkInfo :=
  if hasApis env then tierStep 1 (tierOutcome env 1) (runTier2 env) else runTier2 env

/-- Tier 0: the direct AI query, gated on a known city and the Anthropic
key; `find_booking_links_with_fallback` starts here. -/
def find_booking_links_with_fallback (env : CascadeEnv) : List Nat × List BookingLinkInfo :=
  if env.city && env.anthropic_api_key then tierStep 0 (tierOutcome env 0) (runTier1 env)
  else runTier1 env

/-- Tier `k` failed: its call raised or returned an empty list. -/
def tierFailedP (env : CascadeEnv) (k : Nat) : Prop :=
  match tierOutcome env k with
  | .ok l => l = []
  | .exn _ => True

/-- The cascade invariant established tier by tier: the invoked-tier list
is nonempty, strictly increasing and bounded, a nonempty success
short-circuits everything later, and a failed tier is always followed by
a later invoked tier. -/
def cascadeSpec (env : CascadeEnv) (k : Nat) (out : List Nat × List BookingLinkInfo) : Prop :=
  out.1 ≠ [] ∧
  out.1.Pairwise (· < ·) ∧
  (∀ j ∈ out.1, k ≤ j ∧ j ≤ 5) ∧
  (∀ j ∈ out.1, ∀ l, tierOutcome env j = TierResult.ok l → l ≠ [] →
     (∀ i ∈ out.1, i ≤ j) ∧ out.2 = l) ∧
  (∀ j ∈ out.1, j ≠ 5 → tierFailedP env j → ∃ i ∈ out.1, j < i)

/-- The candidate the AI tier returns in the spec scenario. -/
def aiScenarioLink : BookingLinkInfo :=
  { text := ("Direct booking link (AI)").data,
    href := ("https://be.synxis.com/testinn").data,
    link_type := ("link").data,
    detection_method := ("ai_query").data,
    opens_in := ("new_tab").data }

/-- An environment with all credentials present where the AI tier
succeeds. -/
def aiScenarioEnv : CascadeEnv :=
  { anthropic_api_key := true, firecrawl_api_key := true,
    city := true, hotel_name := true,
    ai_query := .ok [aiScenarioLink],
    smart_scrape := .ok [],
    web_search := .ok [],
    brand_crawl := .ok [],
    chain_patterns := .ok [],
    selector_links := [] }

/-! ### Per-hotel scan boundary (`duetto_analyzer.analyze_hotel`) and the
batch runner (`pipeline/batch_runner.run_batch`) -/

/-- One entry of the hotel list fed to `run_batch` (`{name, website}`). -/
structure HotelInput where
  name : List Char
  website : List Char
deriving DecidableEq

/-- The full `models.DuettoDetectionResult`: the identity fields and the
duration that `analyze_hotel` alone assigns, plus the body-mutated
`ScanData`.  The float duration `round(time.time() - start_time, 1)` is
modelled as the difference of two integer clock readings. -/
structure DuettoDetectionResult where
  hotel_name : List Char
  website_url : List Char
  data : ScanData
  scan_duration_seconds : Int
deriving DecidableEq

/-- The dict returned by `perplexity_lookup.lookup_hotel_urls`. -/
structure PerplexityLookup where
  official_website : List Char
  booking_url : List Char
deriving DecidableEq

/-- What the body of the `try` block in `analyze_hotel` (phases 1-3 and
finalization) does to the result: either it completes, transforming the
accumulated scan data, or it raises after applying some partial
transformation, leaving a message for the `except` clause.  The body
never assigns the identity fields or the duration, which is why it acts
on `ScanData` only. -/
inductive BodyOutcome where
  | ok (f : ScanData → ScanData)
  | raised (g : ScanData → ScanData) (msg : List Char)

/-- The step-0 website resolution in `analyze_hotel`: only when a city was
given, a successful Perplexity lookup replaces an empty website URL. -/
def resolveWebsite (website_url city : List Char)
    (plookup : Except (List Char) PerplexityLookup) : List Char :=
  if city ≠ [] then
    match plookup with
    | .ok lk =>
      if website_url = [] ∧ lk.official_website ≠ [] then lk.official_website
      else website_url
    | .error _ => website_url
  else website_url

/-- Run the `try` body and the `except` clause: a completed body yields
its transformation of the fresh result; a raised body yields its partial
transformation with the `Scan error: ...` message appended. -/
def runBody (body : BodyOutcome) : ScanData :=
  match body with
  | .ok f => f ScanData.init
  | .raised g msg =>
    let d0 := g ScanData.init
    { d0 with errors := d0.errors ++ (("Scan error: ").data ++ msg) :: [] }

/-- `analyze_hotel`: the optional Perplexity website lookup (only when a
city was given), the early return when no website URL can be determined,
and the `try/except/finally` boundary: the duration is assigned on every
path. -/
def analyze_hotel (hotel_name website_url city : List Char)
    (plookup : Except (List Char) PerplexityLookup)
    (body : BodyOutcome) (startT endT : Nat) : DuettoDetectionResult :=
  if resolveWebsite website_url city plookup = [] then
    { hotel_name := hotel_name, website_url := [],
      data := { ScanData.init with
                errors := [("Could not determine hotel website URL").data] },
      scan_duration_seconds := (endT : Int) - (startT : Int) }
  else
    { hotel_name := hotel_name,
      website_url := resolveWebsite website_url city plookup,
      data := runBody body,
      scan_duration_seconds := (endT : Int) - (startT : Int) }

/-- One slot of the list `asyncio.gather(..., return_exceptions=True)`
hands back: a returned result or the exception the task raised. -/
def ScanOutcome := Except (List Char) DuettoDetectionResult

instance : DecidableEq (Except (List Char) DuettoDetectionResult) := fun a b =>
  match a, b with
  | .ok x, .ok y =>
    if h : x = y then .isTrue (by rw [h]) else .isFalse (by intro he; cases he; exact h rfl)
  | .ok _, .error _ => .isFalse (by intro he; cases he)
  | .error _, .ok _ => .isFalse (by intro he; cases he)
  | .error x, .error y =>
    if h : x = y then .isTrue (by rw [h]) else .isFalse (by intro he; cases he; exact h rfl)

/-- The conversion `run_batch` applies to each gathered slot: an exception
becomes a fresh result for that hotel carrying the error string. -/
def convertOutcome (h : HotelInput) (o : Except (List Char) DuettoDetectionResult) :
    DuettoDetectionResult :=
  match o with
  | .ok r => r
  | .error e =>
    { hotel_name := h.name, website_url := h.website,
      data := { ScanData.init with errors := [e] },
      scan_duration_seconds := 0 }

/-- `models.BatchResult` (the fields `run_batch` fills). -/
structure BatchResult where
  total_hotels : Nat
  scanned : Nat
  duetto_pixel_count : Nat
  gamechanger_count : Nat
  results : List DuettoDetectionResult

/-- `run_batch` after the gather: pair each hotel with its task outcome in
order, convert exceptions, and assemble the aggregate counts. -/
def run_batch (hotels : List HotelInput)
    (outcomes : List (Except (List Char) DuettoDetectionResult)) : BatchResult :=
  let final_results := (hotels.zip outcomes).map (fun p => convertOutcome p.1 p.2)
  { total_hotels := hotels.length,
    scanned := final_results.length,
    duetto_pixel_count := final_results.countP (fun r => r.data.duetto_pixel_detected),
    gamechanger_count := final_results.countP (fun r => r.data.gamechanger_detected),
    results := final_results }

/-- `asyncio.gather` reorders nothing: whatever order the `completed`
association list records task completions in, slot `i` of the returned
list is the outcome of task `i`. -/
def gatherResults (n : Nat)
    (completed : List (Nat × Except (List Char) DuettoDetectionResult)) :
    List (Except (List Char) DuettoDetectionResult) :=
  (List.range n).map (fun i =>
    ((completed.find? (fun p => p.1 == i)).map Prod.snd).getD (.error []))

/-- Junk values used with `List.getD` once the index is known in range. -/
def defaultHotel : HotelInput := { name := [], website := [] }

/-- Junk outcome slot (never produced by the model under the length
hypotheses used below). -/
def noOutcome : Except (List Char) DuettoDetectionResult := .error []

/-- Junk result used with `List.getD`. -/
def defaultResult : DuettoDetectionResult := convertOutcome defaultHotel noOutcome

/-- Hotels of the concrete batch witness. -/
def witnessHotelA : HotelInput :=
  { name := ("Alpha Hotel").data, website := ("https://alpha.example").data }

/-- Second witness hotel. -/
def witnessHotelB : HotelInput :=
  { name := ("Beta Hotel").data, website := ("https://beta.example").data }

/-- A successful scan of the second hotel: identity body, 7 clock ticks. -/
def witnessOkResult : DuettoDetectionResult :=
  analyze_hotel witnessHotelB.name witnessHotelB.website []
    (Except.error []) (BodyOutcome.ok (fun d => d)) 0 7

/-- Gathered outcomes: the first scan raised, the second returned. -/
def witnessOutcomes : List (Except (List Char) DuettoDetectionResult) :=
  [Except.error (("boom").data), Except.ok witnessOkResult]

/-- The per-index outcomes of the order witness: scan 0 raised, scan 1
returned the concrete result for hotel B. -/
def witnessF : Nat → Except (List Char) DuettoDetectionResult :=
  fun i => if i = 0 then Except.error (("boom").data) else Except.ok witnessOkResult

/-- Completions recorded out of order: task 1 finished before task 0. -/
def witnessCompleted : List (Nat × Except (List Char) DuettoDetectionResult) :=
  [(1, Except.ok witnessOkResult), (0, Except.error (("boom").data))]

/-- The uppercase hex digit for a nibble (as CPython `quote` emits). -/
def hexDigitChar (n : Nat) : Char :=
  if n < 10 then Char.ofNat (48 + n) else Char.ofNat (55 + n)

/-- The value of a hex digit, either case (as CPython `unquote` accepts). -/
def hexVal (c : Char) : Option Nat :=
  if 48 ≤ c.toNat ∧ c.toNat ≤ 57 then some (c.toNat - 48)
  else if 65 ≤ c.toNat ∧ c.toNat ≤ 70 then some (c.toNat - 55)
  else if 97 ≤ c.toNat ∧ c.toNat ≤ 102 then some (c.toNat - 87)
  else none

/-- Is the character a hex digit? -/
def isHexDigitChar (c : Char) : Bool := (hexVal c).isSome

/-- The characters `quote_plus` never encodes (`always_safe` minus
nothing: letters, digits, `_.-~`; `urlencode` passes an empty extra-safe
string). -/
def quoteSafeChar (c : Char) : Bool :=
  c.isAlphanum || c = '_' || c = '.' || c = '-' || c = '~'

/-- The UTF-8 bytes of a character (used only for codepoints above
U+00FF, to keep the encoder total). -/
def utf8Bytes (c : Char) : List Nat :=
  if c.toNat < 128 then [c.toNat]
  else if c.toNat < 2048 then [192 + c.toNat / 64, 128 + c.toNat % 64]
  else if c.toNat < 65536 then
    [224 + c.toNat / 4096, 128 + (c.toNat / 64) % 64, 128 + c.toNat % 64]
  else
    [240 + c.toNat / 262144, 128 + (c.toNat / 4096) % 64,
     128 + (c.toNat / 64) % 64, 128 + c.toNat % 64]

/-- Percent-encode one byte. -/
def pctByte (b : Nat) : List Char :=
  ['%', hexDigitChar (b / 16), hexDigitChar (b % 16)]

/-- `quote_plus` on one character: safe characters pass through, a space
becomes `+`, anything else is percent-encoded bytewise. -/
def quotePlusChar (c : Char) : List Char :=
  if quoteSafeChar c then [c]
  else if c = ' ' then ['+']
  else if c.toNat < 256 then pctByte c.toNat
  else ((utf8Bytes c).map pctByte).flatten

/-- `urllib.parse.quote_plus`. -/
def quotePlus (s : List Char) : List Char := (s.map quotePlusChar).flatten

/-- `urllib.parse.unquote_plus`: `+` becomes a space and `%XX` becomes
the byte `XX`; malformed escapes pass through verbatim. -/
def unquotePlus : List Char → List Char
  | [] => []
  | '%' :: h :: l :: rest2 =>
    match hexVal h, hexVal l with
    | some hv, some lv => Char.ofNat (16 * hv + lv) :: unquotePlus rest2
    | some _, none => '%' :: unquotePlus (h :: l :: rest2)
    | none, _ => '%' :: unquotePlus (h :: l :: rest2)
  | c :: rest =>
    if c = '+' then ' ' :: unquotePlus rest
    else c :: unquotePlus rest

/-- Characters that can appear in `quote_plus` output. -/
def quoteOutChar (c : Char) : Bool :=
  quoteSafeChar c || c = '+' || c = '%' || isHexDigitChar c

/-! ### Query strings (`urllib.parse.parse_qs` / `urlencode`) -/

/-- Python `qs.split('&')`. -/
def splitOnAmp : List Char → List (List Char)
  | [] => [[]]
  | c :: rest =>
    if c = '&' then [] :: splitOnAmp rest
    else
      match splitOnAmp rest with
      | [] => [[c]]
      | p :: ps => (c :: p) :: ps

/-- Python `'&'.join(...)` (the join `urlencode` performs). -/
def joinAmp : List (List Char) → List Char
  | [] => []
  | [p] => p
  | p :: ps => p ++ '&' :: joinAmp ps

/-- `urllib.parse.parse_qsl` with the default `keep_blank_values=False`:
pieces without `=` and pieces with an empty value are dropped; names and
values are unquoted. -/
def parseQsl (qs : List Char) : List (List Char × List Char) :=
  (splitOnAmp qs).filterMap (fun piece =>
    match splitFirst '=' piece with
    | none => none
    | some (nm, v) => if v = [] then none else some (unquotePlus nm, unquotePlus v))

/-- The grouping `parse_qs` performs on `parse_qsl` output: values of the
same name are collected in first-occurrence order. -/
def groupParams (prs : List (List Char × List Char)) : List (List Char × List (List Char)) :=
  prs.foldl (fun acc p =>
    if acc.any (fun q => q.1 == p.1) then
      acc.map (fun q => if q.1 == p.1 then (q.1, q.2 ++ [p.2]) else q)
    else acc ++ [(p.1, [p.2])]) []

/-- `urllib.parse.parse_qs`. -/
def parseQs (qs : List Char) : List (List Char × List (List Char)) :=
  groupParams (parseQsl qs)

/-- Python `dict.setdefault` on the ordered parameter map. -/
def setdefault (params : List (List Char × List (List Char))) (k : List Char)
    (v : List (List Char)) : List (List Char × List (List Char)) :=
  if params.any (fun q => q.1 == k) then params else params ++ [(k, v)]

/-- The `flat_params` comprehension: each value list is collapsed to its
first element. -/
def flatParams (params : List (List Char × List (List Char))) :
    List (List Char × List Char) :=
  params.map (fun q => (q.1, q.2.headD []))

/-- `urllib.parse.urlencode` with default quoting (`quote_plus`). -/
def urlencode (flat : List (List Char × List Char)) : List Char :=
  joinAmp (flat.map (fun q => quotePlus q.1 ++ '=' :: quotePlus q.2))

/-- The ordered-map lookup the proofs below use: the first entry with the
given key. -/
def findParam (params : List (List Char × List (List Char))) (k : List Char) :
    Option (List Char × List (List Char)) :=
  params.find? (fun q => q.1 == k)

/-- The decoded parameters of the query string of a URL. -/
def queryParams (url : List Char) : List (List Char × List (List Char)) :=
  parseQs (urlparse url).query

/-- The first (decoded) value of a query parameter of a URL, if present. -/
def firstParamValue (url k : List Char) : Option (List Char) :=
  (findParam (queryParams url) k).map (fun q => q.2.headD [])

/-- The tuple of recognisable date-parameter names the generic fallback of
`_inject_dates_into_url` tests lowercased keys against. -/
def DATE_PARAM_KEYS : List (List Char) :=
  [("arrive").data, ("depart").data, ("checkin").data, ("checkout").data,
   ("check_in").data, ("check_out").data, ("datein").data, ("dateout").data,
   ("startdate").data, ("enddate").data, ("arrivaldate").data, ("departuredate").data,
   ("start_date").data, ("end_date").data, ("arrival").data, ("departure").data]

/-- `_inject_dates_into_url` (duetto_analyzer.py lines 22-122).  The four
date strings the Python computes from `date.today()` (`%Y-%m-%d` for
today+14/today+15 and the `%m/%d/%Y` variants) are passed in as the
parameters `checkin`, `checkout`, `checkinSlash`, `checkoutSlash`; the
rest is the literal guard, vendor dispatch chain on the lowercased host
(and, for SynXis/TravelClick, the lowercased full URL), `dict.setdefault`
updates, and the `urlencode`/`urlunparse` rebuild of the source. -/
def inject_dates_into_url (checkin checkout checkinSlash checkoutSlash url : List Char) :
    List Char :=
  if url = [] ∨ hasPre (("http").data) url = false then url
  else
    let parsed := urlparse url
    let params0 := parseQs parsed.query
    let host := lowerStr parsed.netloc
    let url_lower := lowerStr url
    let params :=
      if containsSub (("synxis").data) host || containsSub (("synxis").data) url_lower then
        setdefault (setdefault (setdefault (setdefault params0
          (("arrive").data) [checkin]) (("depart").data) [checkout])
          (("adult").data) [("2").data]) (("rooms").data) [("1").data]
      else if containsSub (("travelclick").data) host ||
          containsSub (("travelclick").data) url_lower then
        setdefault (setdefault (setdefault params0
          (("datein").data) [checkinSlash]) (("dateout").data) [checkoutSlash])
          (("adults").data) [("2").data]
      else if containsSub (("reservations.").data) host then
        setdefault (setdefault (setdefault params0
          (("datein").data) [checkinSlash]) (("dateout").data) [checkoutSlash])
          (("adults").data) [("2").data]
      else if containsSub (("siteminder").data) host ||
          containsSub (("littlehotelier").data) host then
        setdefault (setdefault params0 (("checkin").data) [checkin])
          (("checkout").data) [checkout]
      else if containsSub (("cloudbeds").data) host then
        setdefault (setdefault params0 (("checkin").data) [checkin])
          (("checkout").data) [checkout]
      else if containsSub (("bookassist").data) host then
        setdefault (setdefault params0 (("arrive").data) [checkin])
          (("depart").data) [checkout]
      else if containsSub (("profitroom").data) host then
        setdefault (setdefault params0 (("dateFrom").data) [checkin])
          (("dateTo").data) [checkout]
      else if containsSub (("mews").data) host then
        setdefault (setdefault params0 (("startDate").data) [checkin])
          (("endDate").data) [checkout]
      else if containsSub (("d-edge").data) host || containsSub (("availpro").data) host then
        setdefault (setdefault params0 (("arrivalDate").data) [checkin])
          (("departureDate").data) [checkout]
      else if containsSub (("rfrb").data) host || containsSub (("roiback").data) host then
        setdefault (setdefault params0 (("checkin").data) [checkin])
          (("checkout").data) [checkout]
      else if containsSub (("mirai").data) host then
        setdefault (setdefault params0 (("checkin").data) [checkin])
          (("checkout").data) [checkout]
      else
        if params0.any (fun q => DATE_PARAM_KEYS.contains (lowerStr q.1)) then params0
        else
          setdefault (setdefault (setdefault params0
            (("checkin").data) [checkin]) (("checkout").data) [checkout])
            (("adults").data) [("2").data]
    let new_query := urlencode (flatParams params)
    urlunparse { parsed with query := new_query }

theorem hasPre_iff (p s : List Char) : hasPre p s = true ↔ p <+: s := by
  induction p generalizing s with
  | nil => simp [hasPre]
  | cons c cs ih =>
    cases s with
    | nil => simp [hasPre]
    | cons d ds =>
      simp only [hasPre, Bool.and_eq_true, beq_iff_eq, ih, List.cons_prefix_cons]

theorem containsSub_iff (p s : List Char) : containsSub p s = true ↔ p <:+: s := by
  induction s with
  | nil => simp [containsSub, hasPre_iff, List.prefix_iff_eq_take]
  | cons c rest ih =>
    simp only [containsSub, Bool.or_eq_true, hasPre_iff, ih, List.infix_cons_iff]

theorem applyEvent_inv (m : NetworkMonitor) (e : MonitorEvent) (h : monitorInv m) :
    monitorInv (applyEvent m e) := by
  cases e with
  | request r =>
    simp only [monitorInv, applyEvent, NetworkMonitor.on_request] at h ⊢
    by_cases hr : duettoDomainHit r <;> simp [hr, h]
  | console msg => exact h
  | response hd =>
    cases hd with
    | some hh => exact h
    | none => exact h

theorem foldl_inv (es : List MonitorEvent) (m : NetworkMonitor) (h : monitorInv m) :
    monitorInv (es.foldl applyEvent m) := by
  induction es generalizing m with
  | nil => exact h
  | cons e es ih => exact ih _ (applyEvent_inv m e h)

theorem runMonitor_inv (es : List MonitorEvent) : monitorInv (runMonitor es) :=
  foldl_inv es NetworkMonitor.init rfl

/-- Each of the four pixel-endpoint patterns contains the plain
`duettoresearch.com` domain pattern. -/
theorem pixel_pattern_has_domain :
    ∀ p ∈ DUETTO_PIXEL_PATTERNS, ("duettoresearch.com").data <:+: p := by
  decide

/-- C8: the derived pixel flag is an if-and-only-if over the full capture
log.  `duetto_pixel_detected` iterates only `duetto_requests`, but every
pixel pattern contains the domain pattern `duettoresearch.com`, so a
pixel-matching request is always also captured there. -/
theorem duetto_pixel_detected_iff_eventLog :
    (∀ events : List MonitorEvent,
      (runMonitor events).duetto_pixel_detected = true ↔
        ∃ r ∈ (runMonitor events).all_requests,
          ∃ p ∈ DUETTO_PIXEL_PATTERNS, p <:+: lowerStr r.url) ∧
    (runMonitor [MonitorEvent.request pixelScenarioRequest]).duetto_pixel_detected = true := by
  constructor
  · intro events
    have hinv := runMonitor_inv events
    constructor
    · intro h
      rcases List.any_eq_true.mp h with ⟨r, hr, hp⟩
      rcases List.any_eq_true.mp hp with ⟨p, hpmem, hmatch⟩
      refine ⟨r, ?_, p, hpmem, (containsSub_iff p (lowerStr r.url)).mp hmatch⟩
      rw [monitorInv] at hinv
      exact List.mem_of_mem_filter (hinv ▸ hr)
    · rintro ⟨r, hr, p, hpmem, hmatch⟩
      apply List.any_eq_true.mpr
      refine ⟨r, ?_, ?_⟩
      · rw [monitorInv] at hinv
        rw [hinv]
        apply List.mem_filter.mpr
        refine ⟨hr, ?_⟩
        apply List.any_eq_true.mpr
        refine ⟨("duettoresearch.com").data, by decide, ?_⟩
        exact (containsSub_iff _ _).mpr ((pixel_pattern_has_domain p hpmem).trans hmatch)
      · exact List.any_eq_true.mpr ⟨p, hpmem, (containsSub_iff _ _).mpr hmatch⟩
  · decide

/-- C9: the monitor capture logs are append-only: after any further
events, the earlier `all_requests` and `duetto_requests` lists are
prefixes of the later ones, so the earlier capture set is contained in
the later one. -/
theorem monitor_capture_append_only (es extra : List MonitorEvent) :
    (runMonitor es).all_requests <+: (runMonitor (es ++ extra)).all_requests ∧
    (runMonitor es).duetto_requests <+: (runMonitor (es ++ extra)).duetto_requests ∧
    (∀ r, r ∈ (runMonitor es).all_requests → r ∈ (runMonitor (es ++ extra)).all_requests) := by
  have key : ∀ (more : List MonitorEvent) (m : NetworkMonitor),
      m.all_requests <+: (more.foldl applyEvent m).all_requests ∧
      m.duetto_requests <+: (more.foldl applyEvent m).duetto_requests := by
    intro more
    induction more with
    | nil => intro m; exact ⟨List.prefix_refl _, List.prefix_refl _⟩
    | cons e more ih =>
      intro m
      have step : m.all_requests <+: (applyEvent m e).all_requests ∧
          m.duetto_requests <+: (applyEvent m e).duetto_requests := by
        cases e with
        | request r =>
          constructor
          · exact ⟨[r], rfl⟩
          · simp only [applyEvent, NetworkMonitor.on_request]
            by_cases hr : duettoDomainHit r <;> simp [hr]
        | console msg => exact ⟨List.prefix_refl _, List.prefix_refl _⟩
        | response hd =>
          cases hd with
          | some hh => exact ⟨List.prefix_refl _, List.prefix_refl _⟩
          | none => exact ⟨List.prefix_refl _, List.prefix_refl _⟩
      exact ⟨step.1.trans (ih (applyEvent m e)).1, step.2.trans (ih (applyEvent m e)).2⟩
  have h := key extra (runMonitor es)
  have heq : runMonitor (es ++ extra) = extra.foldl applyEvent (runMonitor es) := by
    simp [runMonitor, List.foldl_append]
  rw [heq]
  exact ⟨h.1, h.2, fun r hr => h.1.subset hr⟩

/-- C3: a result carrying the CSP-allowlist caveat can never score `high`;
it gets `medium` exactly when the raw score reaches 2 and `low` otherwise,
no matter how large the raw score is. -/
theorem csp_caveat_caps_confidence (r : ScanData) (h : cspOnly r = true) :
    calculate_confidence r ≠ ("high").data ∧
    (calculate_confidence r = ("medium").data ↔ 2 ≤ calculate_confidence_score r) ∧
    (calculate_confidence r = ("low").data ↔ calculate_confidence_score r < 2) := by
  have hm : (("medium").data : List Char) ≠ ("high").data := by decide
  have hl : (("low").data : List Char) ≠ ("high").data := by decide
  have hlm : (("low").data : List Char) ≠ ("medium").data := by decide
  have hcc : calculate_confidence r =
      (if 2 ≤ calculate_confidence_score r then ("medium").data else ("low").data) := by
    unfold calculate_confidence
    simp [h]
  by_cases hs : 2 ≤ calculate_confidence_score r
  · rw [hcc, if_pos hs]
    exact ⟨hm, ⟨fun _ => hs, fun _ => rfl⟩,
      ⟨fun he => absurd he hlm.symm, fun hlt => absurd hs (by omega)⟩⟩
  · rw [hcc, if_neg hs]
    exact ⟨hl, ⟨fun he => absurd he hlm, fun h2 => absurd h2 hs⟩,
      ⟨fun _ => by omega, fun _ => rfl⟩⟩

theorem csp_caveat_caps_confidence_witness :
    cspOnly exampleCspResult = true ∧
    calculate_confidence exampleCspResult = ("medium").data ∧
    calculate_confidence exampleCspResult ≠ ("high").data := by
  refine ⟨by decide, ?_, ?_⟩
  · exact (csp_caveat_caps_confidence exampleCspResult (by decide)).2.1.mpr (by decide)
  · exact (csp_caveat_caps_confidence exampleCspResult (by decide)).1

/-- C4 counterexample: on a caveat-free result with four copies of one
evidence string, `_calculate_confidence` returns `high`, not the `low`
the claim (which counts distinct evidence strings) predicts. -/
theorem confidence_distinct_count_counterexample :
    cspOnly dupEvidenceResult = false ∧
    calculate_confidence dupEvidenceResult = ("high").data ∧
    claimC4Confidence dupEvidenceResult = ("low").data := by
  refine ⟨by decide, by decide, by decide⟩

/-- C4 as amended: for a result without the CSP-only caveat, the score
adds 3 for the pixel flag, 3 for the GameChanger flag, the number of
evidence-list entries (duplicates included), 1 for a followed booking
link, and subtracts 1 when any error is recorded; the returned level is
`high` iff the score reaches 4, `medium` iff it is 2 or 3, `low` iff it
is exactly 1, and `none` iff it is at most 0. -/
theorem confidence_thresholds_no_csp (r : ScanData) (h : cspOnly r = false) :
    (calculate_confidence r = ("high").data ↔ 4 ≤ claimC4AmendedScore r) ∧
    (calculate_confidence r = ("medium").data ↔
      2 ≤ claimC4AmendedScore r ∧ claimC4AmendedScore r < 4) ∧
    (calculate_confidence r = ("low").data ↔ claimC4AmendedScore r = 1) ∧
    (calculate_confidence r = ("none").data ↔ claimC4AmendedScore r ≤ 0) := by
  have hscore : calculate_confidence_score r = claimC4AmendedScore r := by
    unfold calculate_confidence_score claimC4AmendedScore
    rw [h]
    rcases hev : r.gamechanger_evidence with _ | ⟨e, es⟩ <;> simp [hev]
  have hne1 : (("high").data : List Char) ≠ ("medium").data := by decide
  have hne2 : (("high").data : List Char) ≠ ("low").data := by decide
  have hne3 : (("high").data : List Char) ≠ ("none").data := by decide
  have hne4 : (("medium").data : List Char) ≠ ("low").data := by decide
  have hne5 : (("medium").data : List Char) ≠ ("none").data := by decide
  have hne6 : (("low").data : List Char) ≠ ("none").data := by decide
  have hcc : calculate_confidence r =
      (if 4 ≤ claimC4AmendedScore r then ("high").data
       else if 2 ≤ claimC4AmendedScore r then ("medium").data
       else if 1 ≤ claimC4AmendedScore r then ("low").data
       else ("none").data) := by
    unfold calculate_confidence
    rw [hscore, h]
    simp
  rw [hcc]
  by_cases h4 : 4 ≤ claimC4AmendedScore r
  · rw [if_pos h4]
    exact ⟨⟨fun _ => h4, fun _ => rfl⟩,
      ⟨fun he => absurd he hne1, fun hr => by omega⟩,
      ⟨fun he => absurd he hne2, fun hr => by omega⟩,
      ⟨fun he => absurd he hne3, fun hr => by omega⟩⟩
  · rw [if_neg h4]
    by_cases h2 : 2 ≤ claimC4AmendedScore r
    · rw [if_pos h2]
      exact ⟨⟨fun he => absurd he.symm hne1, fun hr => absurd hr h4⟩,
        ⟨fun _ => ⟨h2, by omega⟩, fun _ => rfl⟩,
        ⟨fun he => absurd he hne4, fun hr => by omega⟩,
        ⟨fun he => absurd he hne5, fun hr => by omega⟩⟩
    · rw [if_neg h2]
      by_cases h1 : 1 ≤ claimC4AmendedScore r
      · rw [if_pos h1]
        exact ⟨⟨fun he => absurd he.symm hne2, fun hr => absurd hr h4⟩,
          ⟨fun he => absurd he.symm hne4, fun hr => absurd hr.1 h2⟩,
          ⟨fun _ => by omega, fun _ => rfl⟩,
          ⟨fun he => absurd he hne6, fun hr => by omega⟩⟩
      · rw [if_neg h1]
        exact ⟨⟨fun he => absurd he.symm hne3, fun hr => absurd hr h4⟩,
          ⟨fun he => absurd he.symm hne5, fun hr => absurd hr.1 h2⟩,
          ⟨fun he => absurd he.symm hne6, fun hr => by omega⟩,
          ⟨fun _ => by omega, fun _ => rfl⟩⟩

theorem confidence_thresholds_no_csp_witness :
    cspOnly highExampleResult = false ∧
    calculate_confidence highExampleResult = ("high").data :=
  ⟨by decide,
   (confidence_thresholds_no_csp highExampleResult (by decide)).1.mpr (by decide)⟩

theorem finalizeStep2_pixel (m : NetworkMonitor) (r : ScanData) :
    (finalizeStep2 m r).duetto_pixel_detected = r.duetto_pixel_detected := by
  unfold finalizeStep2
  split <;> rfl

theorem finalizeStep2_errors (m : NetworkMonitor) (r : ScanData) :
    (finalizeStep2 m r).errors = r.errors := by
  unfold finalizeStep2
  split <;> rfl

theorem finalizeStep2_evidence (m : NetworkMonitor) (r : ScanData) :
    (finalizeStep2 m r).gamechanger_evidence = r.gamechanger_evidence := by
  unfold finalizeStep2
  split <;> rfl

theorem finalizeStep4_pixel (m : NetworkMonitor) (r : ScanData) :
    (finalizeStep4 m r).duetto_pixel_detected = r.duetto_pixel_detected := by
  unfold finalizeStep4
  split <;> rfl

theorem finalizeStep4_errors (m : NetworkMonitor) (r : ScanData) :
    (finalizeStep4 m r).errors = r.errors := by
  unfold finalizeStep4
  split <;> rfl

theorem finalizeStep4_evidence_mem (m : NetworkMonitor) (r : ScanData) (ev : List Char)
    (h : ev ∈ r.gamechanger_evidence) : ev ∈ (finalizeStep4 m r).gamechanger_evidence := by
  unfold finalizeStep4
  split
  · exact h
  · exact List.mem_append_left _ h

theorem finalizeTail_pixel (m : NetworkMonitor) (r : ScanData) :
    (finalizeStep8 m (finalizeStep7 m (finalizeStep6 (finalizeStep5 r)))).duetto_pixel_detected
      = r.duetto_pixel_detected := rfl

theorem finalizeTail_errors (m : NetworkMonitor) (r : ScanData) :
    (finalizeStep8 m (finalizeStep7 m (finalizeStep6 (finalizeStep5 r)))).errors = r.errors := rfl

theorem finalizeTail_evidence (m : NetworkMonitor) (r : ScanData) :
    (finalizeStep8 m (finalizeStep7 m (finalizeStep6 (finalizeStep5 r)))).gamechanger_evidence
      = r.gamechanger_evidence := rfl

/-- C2: when a captured CSP header allowlists the vendor domain but the
monitor recorded no pixel request, the finalize block still sets
`duetto_pixel_detected`, appends the CSP-allowlist evidence string, and
records the provenance caveat (whose text contains `CSP allowlist`) in
the errors, so the confidence scorer sees `csp_only` on the returned
result. -/
theorem csp_allowlist_flags_detection (m : NetworkMonitor) (r : ScanData)
    (hcsp : m.duetto_in_csp = true) (hpix : m.duetto_pixel_detected = false) :
    (finalizeNetworkChecks m r).duetto_pixel_detected = true ∧
    cspCaveatMsg ∈ (finalizeNetworkChecks m r).errors ∧
    containsSub (("CSP allowlist").data) cspCaveatMsg = true ∧
    cspAllowEvidence ∈ (finalizeNetworkChecks m r).gamechanger_evidence ∧
    cspOnly (finalizeNetworkChecks m r) = true := by
  have h2pix : (finalizeStep2 m (finalizeStep1 m r)).duetto_pixel_detected = false := by
    rw [finalizeStep2_pixel]
    exact hpix
  have hfe : finalizeNetworkChecks m r = finalizeStep8 m (finalizeStep7 m (finalizeStep6
      (finalizeStep5 (finalizeStep4 m (finalizeStep3 m
        (finalizeStep2 m (finalizeStep1 m r))))))) := rfl
  generalize hgen : finalizeStep2 m (finalizeStep1 m r) = r2 at h2pix hfe
  have h3 : finalizeStep3 m r2 =
      { r2 with gamechanger_evidence := r2.gamechanger_evidence ++ [cspAllowEvidence],
                duetto_pixel_detected := true,
                errors := r2.errors ++ [cspCaveatMsg] } := by
    unfold finalizeStep3
    rw [hcsp, h2pix]
    simp
  rw [hfe, h3]
  refine ⟨?_, ?_, by decide, ?_, ?_⟩
  · rw [finalizeTail_pixel, finalizeStep4_pixel]
  · rw [finalizeTail_errors, finalizeStep4_errors]
    exact List.mem_append_right _ (List.mem_singleton.mpr rfl)
  · rw [finalizeTail_evidence]
    exact finalizeStep4_evidence_mem m _ _
      (List.mem_append_right _ (List.mem_singleton.mpr rfl))
  · apply List.any_eq_true.mpr
    refine ⟨cspCaveatMsg, ?_, by decide⟩
    rw [finalizeTail_errors, finalizeStep4_errors]
    exact List.mem_append_right _ (List.mem_singleton.mpr rfl)

theorem csp_allowlist_flags_detection_witness :
    (finalizeNetworkChecks exampleCspMonitor ScanData.init).duetto_pixel_detected = true ∧
    cspCaveatMsg ∈ (finalizeNetworkChecks exampleCspMonitor ScanData.init).errors ∧
    cspOnly (finalizeNetworkChecks exampleCspMonitor ScanData.init) = true := by
  have h := csp_allowlist_flags_detection exampleCspMonitor ScanData.init (by decide) (by decide)
  exact ⟨h.1, h.2.1, h.2.2.2.2⟩

/-- Stable sorting leaves each equal-score class in source order. -/
theorem insertionSort_filter_fixed {α : Type} (r : α → α → Prop) [DecidableRel r]
    (l : List α) (p : α → Bool) (hp : ∀ a b, p a = true → p b = true → r a b) :
    (List.insertionSort r l).filter p = l.filter p := by
  have hpair : (l.filter p).Pairwise r := by
    apply List.pairwise_of_forall_mem_list
    intro a ha b hb
    exact hp a b (List.of_mem_filter ha) (List.of_mem_filter hb)
  have hsub : List.Sublist (l.filter p) (List.insertionSort r l) :=
    List.sublist_insertionSort hpair (List.filter_sublist l)
  have h2 : List.Sublist (l.filter p) ((List.insertionSort r l).filter p) := by
    have h3 := hsub.filter p
    rwa [List.filter_filter, (by simp : (fun a => p a && p a) = p)] at h3
  have hlen : ((List.insertionSort r l).filter p).length = (l.filter p).length :=
    ((List.perm_insertionSort r l).filter p).length_eq
  exact (h2.eq_of_length hlen.symm).symm

/-- C6: `rank_booking_links` returns a permutation of its input sorted by
descending score, candidates of equal score keep their original order,
the ranking is deterministic, and the base scores descend from the
text-match/LLM methods through ai_query, web_search, brand_crawl,
chain_pattern and href_pattern down to iframe_src; the text bonus is
highest for `book now`, and new-tab and concrete-href candidates get
additive bonuses. -/
theorem rank_booking_links_spec (links : List BookingLinkInfo) :
    List.Perm (rank_booking_links links) links ∧
    (rank_booking_links links).Pairwise
      (fun a b => bookingLinkScore b ≤ bookingLinkScore a) ∧
    (∀ n : Int, (rank_booking_links links).filter (fun l => bookingLinkScore l == n)
        = links.filter (fun l => bookingLinkScore l == n)) ∧
    rank_booking_links links = rank_booking_links links ∧
    (bookingLinkScore (methodOnlyLink (("text_match").data)) = 100 ∧
     bookingLinkScore (methodOnlyLink (("firecrawl_llm").data)) = 100 ∧
     bookingLinkScore (methodOnlyLink (("ai_query").data)) = 95 ∧
     bookingLinkScore (methodOnlyLink (("web_search").data)) = 90 ∧
     bookingLinkScore (methodOnlyLink (("brand_crawl").data)) = 85 ∧
     bookingLinkScore (methodOnlyLink (("chain_pattern").data)) = 70 ∧
     bookingLinkScore (methodOnlyLink (("href_pattern").data)) = 50 ∧
     bookingLinkScore (methodOnlyLink (("iframe_src").data)) = 25) ∧
    (bookingLinkScore { methodOnlyLink (("ai_query").data) with text := ("Book Now").data }
        = 95 + 50 ∧
     bookingLinkScore { methodOnlyLink (("ai_query").data) with text := ("Book a room").data }
        = 95 + 30 ∧
     bookingLinkScore { methodOnlyLink (("ai_query").data) with text := ("Reserve").data }
        = 95 + 30 ∧
     bookingLinkScore { methodOnlyLink (("ai_query").data) with text := ("Check Availability").data }
        = 95 + 20 ∧
     bookingLinkScore { methodOnlyLink (("ai_query").data) with opens_in := ("new_tab").data }
        = 95 + 10 ∧
     bookingLinkScore { methodOnlyLink (("ai_query").data) with href := ("https://x.com").data }
        = 95 + 10) := by
  refine ⟨List.perm_insertionSort rankRel links,
    List.sorted_insertionSort rankRel links, ?_, rfl, ?_, ?_⟩
  · intro n
    apply insertionSort_filter_fixed
    intro a b ha hb
    have ha2 : bookingLinkScore a = n := by simpa using ha
    have hb2 : bookingLinkScore b = n := by simpa using hb
    unfold rankRel
    omega
  · refine ⟨by decide, by decide, by decide, by decide, by decide, by decide, by decide, by decide⟩
  · refine ⟨by decide, by decide, by decide, by decide, by decide, by decide⟩

theorem runTier5_spec (env : CascadeEnv) : cascadeSpec env 5 (runTier5 env) := by
  refine ⟨by simp [runTier5], by simp [runTier5], ?_, ?_, ?_⟩
  · intro j hj
    simp only [runTier5, List.mem_singleton] at hj
    omega
  · intro j hj l hl hne
    simp only [runTier5, List.mem_singleton] at hj
    subst hj
    simp only [tierOutcome] at hl
    cases hl
    refine ⟨?_, rfl⟩
    intro i hi
    simp only [runTier5, List.mem_singleton] at hi
    omega
  · intro j hj hj5 hfail
    simp only [runTier5, List.mem_singleton] at hj
    exact absurd hj hj5

theorem tierStep_spec (env : CascadeEnv) (k : Nat) (hk5 : k ≤ 5)
    (next : List Nat × List BookingLinkInfo) (hnext : cascadeSpec env (k + 1) next) :
    cascadeSpec env k (tierStep k (tierOutcome env k) next) := by
  obtain ⟨hne, hpair, hbound, hshort, hadv⟩ := hnext
  have hc2 : (k :: next.1).Pairwise (· < ·) := by
    refine List.pairwise_cons.mpr ⟨?_, hpair⟩
    intro j hj
    have := (hbound j hj).1
    omega
  have hc3 : ∀ j ∈ k :: next.1, k ≤ j ∧ j ≤ 5 := by
    intro j hj
    rcases List.mem_cons.mp hj with hj | hj
    · omega
    · have := hbound j hj
      omega
  have hc4t : ∀ j ∈ next.1, ∀ l, tierOutcome env j = TierResult.ok l → l ≠ [] →
      (∀ i ∈ k :: next.1, i ≤ j) ∧ next.2 = l := by
    intro j hj l hl hlne
    obtain ⟨hall, hres2⟩ := hshort j hj l hl hlne
    refine ⟨?_, hres2⟩
    intro i hi
    rcases List.mem_cons.mp hi with hi | hi
    · have := (hbound j hj).1
      omega
    · exact hall i hi
  have hc5 : ∀ j ∈ k :: next.1, j ≠ 5 → tierFailedP env j → ∃ i ∈ k :: next.1, j < i := by
    intro j hj hj5 hfail
    rcases List.mem_cons.mp hj with hj | hj
    · subst hj
      obtain ⟨i, hi⟩ := List.exists_mem_of_ne_nil _ hne
      have := (hbound i hi).1
      exact ⟨i, List.mem_cons_of_mem _ hi, by omega⟩
    · obtain ⟨i, hi, hji⟩ := hadv j hj hj5 hfail
      exact ⟨i, List.mem_cons_of_mem _ hi, hji⟩
  rcases hres : tierOutcome env k with l | msg
  · rcases l with _ | ⟨x, xs⟩
    · have hstep : tierStep k (tierOutcome env k) next = (k :: next.1, next.2) := by
        rw [hres]
        simp [tierStep]
      rw [hres] at hstep
      rw [hstep]
      refine ⟨by simp, hc2, hc3, ?_, hc5⟩
      intro j hj l2 hl2 hl2ne
      rcases List.mem_cons.mp hj with hj | hj
      · subst hj
        rw [hres] at hl2
        cases hl2
        exact absurd rfl hl2ne
      · exact hc4t j hj l2 hl2 hl2ne
    · have hstep : tierStep k (tierOutcome env k) next = ([k], x :: xs) := by
        rw [hres]
        simp [tierStep]
      rw [hres] at hstep
      rw [hstep]
      refine ⟨by simp, by simp, ?_, ?_, ?_⟩
      · intro j hj
        simp only [List.mem_singleton] at hj
        omega
      · intro j hj l2 hl2 hl2ne
        simp only [List.mem_singleton] at hj
        subst hj
        rw [hres] at hl2
        cases hl2
        refine ⟨?_, rfl⟩
        intro i hi
        simp only [List.mem_singleton] at hi
        omega
      · intro j hj hj5 hfail
        simp only [List.mem_singleton] at hj
        subst hj
        unfold tierFailedP at hfail
        rw [hres] at hfail
        exact absurd hfail (by simp)
  · have hstep : tierStep k (tierOutcome env k) next = (k :: next.1, next.2) := by
      rw [hres]
      simp [tierStep]
    rw [hres] at hstep
    rw [hstep]
    refine ⟨by simp, hc2, hc3, ?_, hc5⟩
    intro j hj l2 hl2 hl2ne
    rcases List.mem_cons.mp hj with hj | hj
    · subst hj
      rw [hres] at hl2
      cases hl2
    · exact hc4t j hj l2 hl2 hl2ne

theorem cascadeSpec_mono (env : CascadeEnv) (k : Nat) (out : List Nat × List BookingLinkInfo)
    (h : cascadeSpec env (k + 1) out) : cascadeSpec env k out := by
  obtain ⟨h1, h2, h3, h4, h5⟩ := h
  refine ⟨h1, h2, ?_, h4, h5⟩
  intro j hj
  have := h3 j hj
  omega

theorem runTier4_spec (env : CascadeEnv) : cascadeSpec env 4 (runTier4 env) := by
  unfold runTier4
  split
  · exact tierStep_spec env 4 (by omega) _ (runTier5_spec env)
  · exact cascadeSpec_mono env 4 _ (runTier5_spec env)

theorem runTier3_spec (env : CascadeEnv) : cascadeSpec env 3 (runTier3 env) := by
  unfold runTier3
  split
  · exact tierStep_spec env 3 (by omega) _ (runTier4_spec env)
  · exact cascadeSpec_mono env 3 _ (runTier4_spec env)

theorem runTier2_spec (env : CascadeEnv) : cascadeSpec env 2 (runTier2 env) := by
  unfold runTier2
  split
  · exact tierStep_spec env 2 (by omega) _ (runTier3_spec env)
  · exact cascadeSpec_mono env 2 _ (runTier3_spec env)

theorem runTier1_spec (env : CascadeEnv) : cascadeSpec env 1 (runTier1 env) := by
  unfold runTier1
  split
  · exact tierStep_spec env 1 (by omega) _ (runTier2_spec env)
  · exact cascadeSpec_mono env 1 _ (runTier2_spec env)

theorem runTier0_spec (env : CascadeEnv) :
    cascadeSpec env 0 (find_booking_links_with_fallback env) := by
  unfold find_booking_links_with_fallback
  split
  · exact tierStep_spec env 0 (by omega) _ (runTier1_spec env)
  · exact cascadeSpec_mono env 0 _ (runTier1_spec env)

/-- C5: the discovery tiers run in strict priority order; whenever an
invoked tier returns a nonempty candidate list, no later tier is invoked
and that list is returned; an invoked tier that raises or comes back
empty merely advances the cascade to a later tier.  In the spec
scenario where the AI query succeeds, only tier 0 is invoked. -/
theorem cascade_short_circuit (env : CascadeEnv) :
    (find_booking_links_with_fallback env).1.Pairwise (· < ·) ∧
    (∀ k ∈ (find_booking_links_with_fallback env).1,
      ∀ l, tierOutcome env k = TierResult.ok l → l ≠ [] →
        (∀ j ∈ (find_booking_links_with_fallback env).1, j ≤ k) ∧
        (find_booking_links_with_fallback env).2 = l) ∧
    (∀ k ∈ (find_booking_links_with_fallback env).1, k ≠ 5 → tierFailedP env k →
      ∃ j ∈ (find_booking_links_with_fallback env).1, k < j) ∧
    find_booking_links_with_fallback aiScenarioEnv = ([0], [aiScenarioLink]) := by
  obtain ⟨h1, h2, h3, h4, h5⟩ := runTier0_spec env
  exact ⟨h2, h4, h5, rfl⟩

theorem analyze_hotel_duration (hotel_name website_url city : List Char)
    (plookup : Except (List Char) PerplexityLookup) (body : BodyOutcome) (startT endT : Nat) :
    (analyze_hotel hotel_name website_url city plookup body startT endT).scan_duration_seconds
      = (endT : Int) - (startT : Int) := by
  unfold analyze_hotel
  split <;> rfl

theorem resolveWebsite_city_empty (website_url : List Char)
    (plookup : Except (List Char) PerplexityLookup) :
    resolveWebsite website_url [] plookup = website_url := by
  unfold resolveWebsite
  simp

theorem analyze_hotel_city_empty_fields (hotel_name website_url : List Char)
    (plookup : Except (List Char) PerplexityLookup) (body : BodyOutcome) (startT endT : Nat) :
    (analyze_hotel hotel_name website_url [] plookup body startT endT).hotel_name = hotel_name ∧
    (analyze_hotel hotel_name website_url [] plookup body startT endT).website_url = website_url := by
  unfold analyze_hotel
  rw [resolveWebsite_city_empty]
  split
  · rename_i hw
    exact ⟨rfl, hw.symm⟩
  · exact ⟨rfl, rfl⟩

theorem gather_eq (n : Nat) (f : Nat → Except (List Char) DuettoDetectionResult)
    (completed : List (Nat × Except (List Char) DuettoDetectionResult))
    (hperm : completed.Perm ((List.range n).map (fun i => (i, f i)))) :
    gatherResults n completed = (List.range n).map f := by
  unfold gatherResults
  apply List.map_congr_left
  intro i hi
  have hmem : (i, f i) ∈ completed :=
    hperm.mem_iff.mpr (List.mem_map.mpr ⟨i, hi, rfl⟩)
  have hsome : (completed.find? (fun p => p.1 == i)).isSome :=
    List.find?_isSome.mpr ⟨(i, f i), hmem, by simp⟩
  obtain ⟨a, ha⟩ := Option.isSome_iff_exists.mp hsome
  have hpa : a.1 = i := by simpa using List.find?_some ha
  have hval : a.2 = f i := by
    have hm2 := hperm.mem_iff.mp (List.mem_of_find?_eq_some ha)
    obtain ⟨j, hj, hje⟩ := List.mem_map.mp hm2
    have hj1 : j = a.1 := congrArg Prod.fst hje
    have hj2 : f j = a.2 := congrArg Prod.snd hje
    rw [← hj2, hj1, hpa]
  rw [ha]
  simp [hval]

theorem getD_of_lt {α : Type} (l : List α) (i : Nat) (d : α) (h : i < l.length) :
    l.getD i d = l[i] := by
  simp [List.getD_eq_getElem?_getD, List.getElem?_eq_getElem h]

theorem run_batch_results_length (hotels : List HotelInput)
    (outcomes : List (Except (List Char) DuettoDetectionResult))
    (hlen : outcomes.length = hotels.length) :
    (run_batch hotels outcomes).results.length = hotels.length := by
  simp [run_batch, List.length_zip, hlen]

theorem run_batch_results_getD (hotels : List HotelInput)
    (outcomes : List (Except (List Char) DuettoDetectionResult))
    (hlen : outcomes.length = hotels.length) (i : Nat) (hi : i < hotels.length) :
    (run_batch hotels outcomes).results.getD i defaultResult
      = convertOutcome (hotels.getD i defaultHotel) (outcomes.getD i noOutcome) := by
  have hio : i < outcomes.length := by omega
  have hiz : i < (hotels.zip outcomes).length := by
    simp only [List.length_zip, hlen]
    omega
  have hir : i < (run_batch hotels outcomes).results.length := by
    rw [run_batch_results_length hotels outcomes hlen]
    exact hi
  rw [getD_of_lt _ _ _ hir, getD_of_lt _ _ _ hi, getD_of_lt _ _ _ hio]
  show ((hotels.zip outcomes).map (fun p => convertOutcome p.1 p.2))[i] = _
  rw [List.getElem_map]
  rw [List.getElem_zip]

/-- C1: each per-hotel scan yields exactly one result record whose
duration is nonnegative (the wall clock is assumed monotone across a
scan), and the batch converts every raised per-hotel exception into a
result carrying that error string for that hotel, so one failure never
disturbs the record produced for any other hotel: slot `i` of the batch
output depends only on hotel `i` and outcome `i`. -/
theorem run_batch_isolates_failures (hotels : List HotelInput)
    (outcomes : List (Except (List Char) DuettoDetectionResult))
    (hlen : outcomes.length = hotels.length)
    (hscan : ∀ i, i < hotels.length → ∀ r, outcomes.getD i noOutcome = Except.ok r →
      ∃ city plookup body startT endT, startT ≤ endT ∧
        r = analyze_hotel (hotels.getD i defaultHotel).name
              (hotels.getD i defaultHotel).website city plookup body startT endT) :
    (run_batch hotels outcomes).results.length = hotels.length ∧
    (run_batch hotels outcomes).scanned = hotels.length ∧
    (∀ r ∈ (run_batch hotels outcomes).results, 0 ≤ r.scan_duration_seconds) ∧
    (∀ i, i < hotels.length → ∀ e, outcomes.getD i noOutcome = Except.error e →
      ((run_batch hotels outcomes).results.getD i defaultResult).data.errors = [e] ∧
      ((run_batch hotels outcomes).results.getD i defaultResult).hotel_name
        = (hotels.getD i defaultHotel).name) ∧
    (∀ i, i < hotels.length →
      (run_batch hotels outcomes).results.getD i defaultResult
        = convertOutcome (hotels.getD i defaultHotel) (outcomes.getD i noOutcome)) := by
  refine ⟨run_batch_results_length hotels outcomes hlen, ?_, ?_, ?_, ?_⟩
  · show ((hotels.zip outcomes).map (fun p => convertOutcome p.1 p.2)).length = _
    simp [List.length_zip, hlen]
  · intro r hr
    obtain ⟨i, hi, hrr⟩ := List.getElem_of_mem hr
    have hilen : i < hotels.length := by
      have := hi
      rw [run_batch_results_length hotels outcomes hlen] at this
      exact this
    have hix := run_batch_results_getD hotels outcomes hlen i hilen
    rw [getD_of_lt _ _ _ hi, hrr] at hix
    rcases ho : outcomes.getD i noOutcome with e | r2
    · rw [ho] at hix
      rw [hix]
      exact le_refl 0
    · rw [ho] at hix
      obtain ⟨city, plookup, body, startT, endT, hmono, hr2⟩ := hscan i hilen r2 ho
      rw [hix]
      show (0 : Int) ≤ r2.scan_duration_seconds
      rw [hr2, analyze_hotel_duration]
      omega
  · intro i hi e he
    rw [run_batch_results_getD hotels outcomes hlen i hi, he]
    exact ⟨rfl, rfl⟩
  · intro i hi
    exact run_batch_results_getD hotels outcomes hlen i hi

theorem run_batch_isolates_failures_witness :
    (run_batch [witnessHotelA, witnessHotelB] witnessOutcomes).results.length = 2 ∧
    (∀ r ∈ (run_batch [witnessHotelA, witnessHotelB] witnessOutcomes).results,
      0 ≤ r.scan_duration_seconds) ∧
    ((run_batch [witnessHotelA, witnessHotelB] witnessOutcomes).results.getD 0
        defaultResult).data.errors = [("boom").data] := by
  have hscan : ∀ i, i < ([witnessHotelA, witnessHotelB] : List HotelInput).length →
      ∀ r, witnessOutcomes.getD i noOutcome = Except.ok r →
      ∃ city plookup body startT endT, startT ≤ endT ∧
        r = analyze_hotel (([witnessHotelA, witnessHotelB] : List HotelInput).getD i defaultHotel).name
              (([witnessHotelA, witnessHotelB] : List HotelInput).getD i defaultHotel).website
              city plookup body startT endT := by
    intro i hi r hr
    have hi2 : i < 2 := by simpa using hi
    match i with
    | 0 => simp [witnessOutcomes, noOutcome] at hr
    | 1 =>
      have hr2 : witnessOkResult = r := by
        have : witnessOutcomes.getD 1 noOutcome = Except.ok witnessOkResult := rfl
        rw [this] at hr
        exact Except.ok.inj hr
      exact ⟨[], Except.error [], BodyOutcome.ok (fun d => d), 0, 7, by omega, hr2 ▸ rfl⟩
    | (n + 2) => omega
  have h := run_batch_isolates_failures [witnessHotelA, witnessHotelB] witnessOutcomes rfl hscan
  exact ⟨h.1, h.2.2.1, (h.2.2.2.1 0 (by decide) (("boom").data) rfl).1⟩

/-- C10: run_batch preserves input order regardless of the order in which
the concurrent scans complete: whatever permutation the completion log
records, slot `i` of the batch results is the converted outcome of the
scan of hotel `i`, so its identity fields equal the i-th input (run_batch
calls analyze_hotel without a city, so the website URL is never
rewritten), and `scanned` counts every input hotel. -/
theorem run_batch_preserves_order (hotels : List HotelInput)
    (f : Nat → Except (List Char) DuettoDetectionResult)
    (completed : List (Nat × Except (List Char) DuettoDetectionResult))
    (hperm : completed.Perm ((List.range hotels.length).map (fun i => (i, f i))))
    (hscan : ∀ i, i < hotels.length → ∀ r, f i = Except.ok r →
      ∃ plookup body startT endT,
        r = analyze_hotel (hotels.getD i defaultHotel).name
              (hotels.getD i defaultHotel).website [] plookup body startT endT) :
    (run_batch hotels (gatherResults hotels.length completed)).results.length
      = hotels.length ∧
    (run_batch hotels (gatherResults hotels.length completed)).scanned = hotels.length ∧
    (∀ i, i < hotels.length →
      ((run_batch hotels (gatherResults hotels.length completed)).results.getD i
          defaultResult).hotel_name = (hotels.getD i defaultHotel).name ∧
      ((run_batch hotels (gatherResults hotels.length completed)).results.getD i
          defaultResult).website_url = (hotels.getD i defaultHotel).website) := by
  rw [gather_eq hotels.length f completed hperm]
  have hlen : ((List.range hotels.length).map f).length = hotels.length := by simp
  refine ⟨run_batch_results_length _ _ hlen, ?_, ?_⟩
  · show ((hotels.zip _).map (fun p => convertOutcome p.1 p.2)).length = _
    simp [List.length_zip, hlen]
  · intro i hi
    have hgd : ((List.range hotels.length).map f).getD i noOutcome = f i := by
      rw [getD_of_lt _ _ _ (by simpa using hi)]
      rw [List.getElem_map]
      simp
    rw [run_batch_results_getD hotels _ hlen i hi, hgd]
    rcases hf : f i with e | r
    · exact ⟨rfl, rfl⟩
    · obtain ⟨plookup, body, startT, endT, hr⟩ := hscan i hi r hf
      have hfields := analyze_hotel_city_empty_fields (hotels.getD i defaultHotel).name
        (hotels.getD i defaultHotel).website plookup body startT endT
      rw [hr]
      exact ⟨hfields.1, hfields.2⟩

theorem run_batch_preserves_order_witness :
    ((run_batch [witnessHotelA, witnessHotelB]
        (gatherResults 2 witnessCompleted)).results.getD 0 defaultResult).hotel_name
      = witnessHotelA.name ∧
    ((run_batch [witnessHotelA, witnessHotelB]
        (gatherResults 2 witnessCompleted)).results.getD 1 defaultResult).hotel_name
      = witnessHotelB.name ∧
    ((run_batch [witnessHotelA, witnessHotelB]
        (gatherResults 2 witnessCompleted)).results.getD 1 defaultResult).website_url
      = witnessHotelB.website := by
  have hscan : ∀ i, i < ([witnessHotelA, witnessHotelB] : List HotelInput).length →
      ∀ r, witnessF i = Except.ok r →
      ∃ plookup body startT endT,
        r = analyze_hotel
              (([witnessHotelA, witnessHotelB] : List HotelInput).getD i defaultHotel).name
              (([witnessHotelA, witnessHotelB] : List HotelInput).getD i defaultHotel).website
              [] plookup body startT endT := by
    intro i hi r hr
    have hi2 : i < 2 := by simpa using hi
    match i with
    | 0 => simp [witnessF] at hr
    | 1 =>
      have hr2 : witnessOkResult = r := by
        have : witnessF 1 = Except.ok witnessOkResult := rfl
        rw [this] at hr
        exact Except.ok.inj hr
      exact ⟨Except.error [], BodyOutcome.ok (fun d => d), 0, 7, hr2 ▸ rfl⟩
    | (n + 2) => omega
  have h := run_batch_preserves_order [witnessHotelA, witnessHotelB] witnessF
    witnessCompleted (by decide) hscan
  exact ⟨(h.2.2 0 (by decide)).1, (h.2.2 1 (by decide)).1, (h.2.2 1 (by decide)).2⟩

/-! ### Percent-encoding (`urllib.parse.quote_plus` / `unquote_plus`).
Encoding is modelled at the byte level: faithful to CPython for ASCII
data (the only data valid URLs contain); multi-byte UTF-8 assembly of
non-ASCII percent-escapes is not reassembled. -/

theorem char_toNat_ofNat (n : Nat) (h : Nat.isValidChar n) : (Char.ofNat n).toNat = n := by
  rw [Char.ofNat, dif_pos h]
  rfl

theorem hexVal_hexDigitChar : ∀ n, n < 16 → hexVal (hexDigitChar n) = some n := by decide

theorem utf8Bytes_lt (c : Char) : ∀ b ∈ utf8Bytes c, b < 256 := by
  intro b hb
  unfold utf8Bytes at hb
  split at hb
  · simp at hb
    omega
  · split at hb
    · rename_i h1 h2
      simp at hb
      rcases hb with hb | hb <;> omega
    · split at hb
      · rename_i h1 h2 h3
        simp at hb
        rcases hb with hb | hb | hb <;> omega
      · rename_i h1 h2 h3
        have hcn : c.toNat < 1114112 := by
          rcases c.valid with h | h
          · exact Nat.lt_trans h (by norm_num)
          · exact h.2
        simp at hb
        rcases hb with hb | hb | hb | hb <;> omega

theorem unquotePlus_cons_ne (c : Char) (X : List Char) (h1 : c ≠ '%') (h2 : c ≠ '+') :
    unquotePlus (c :: X) = c :: unquotePlus X := by
  rcases X with _ | ⟨x, _ | ⟨y, t⟩⟩ <;> simp [unquotePlus, h1, h2]

theorem unquotePlus_pct (h l : Char) (rest2 : List Char) (hv lv : Nat)
    (hh : hexVal h = some hv) (hl : hexVal l = some lv) :
    unquotePlus ('%' :: h :: l :: rest2) = Char.ofNat (16 * hv + lv) :: unquotePlus rest2 := by
  simp [unquotePlus, hh, hl]

theorem unquotePlus_plus (X : List Char) : unquotePlus ('+' :: X) = ' ' :: unquotePlus X := by
  rcases X with _ | ⟨x, _ | ⟨y, t⟩⟩ <;> simp [unquotePlus]

theorem quotePlus_cons (c : Char) (t : List Char) :
    quotePlus (c :: t) = quotePlusChar c ++ quotePlus t := by
  simp [quotePlus]

theorem quoteSafeChar_not_special (c : Char) (h : quoteSafeChar c = true) :
    c ≠ '%' ∧ c ≠ '+' ∧ c ≠ ' ' ∧ c ≠ '&' ∧ c ≠ '=' ∧ c ≠ '#' ∧ c ≠ '?' := by
  refine ⟨?_, ?_, ?_, ?_, ?_, ?_, ?_⟩ <;> (intro hc; subst hc; revert h; decide)

theorem quoteOutChar_not_special (c : Char) (h : quoteOutChar c = true) :
    c ≠ '&' ∧ c ≠ '=' ∧ c ≠ '#' ∧ c ≠ '?' := by
  refine ⟨?_, ?_, ?_, ?_⟩ <;> (intro hc; subst hc; revert h; decide)

theorem pctByte_all_out (b : Nat) (hb : b < 256) : ∀ c ∈ pctByte b, quoteOutChar c = true := by
  intro c hc
  unfold pctByte at hc
  rcases List.mem_cons.mp hc with rfl | hc
  · decide
  rcases List.mem_cons.mp hc with rfl | hc
  · unfold quoteOutChar isHexDigitChar
    rw [hexVal_hexDigitChar (b / 16) (by omega)]
    simp
  rcases List.mem_cons.mp hc with rfl | hc
  · unfold quoteOutChar isHexDigitChar
    rw [hexVal_hexDigitChar (b % 16) (by omega)]
    simp
  · simp at hc

theorem quotePlusChar_all_out (c : Char) : ∀ d ∈ quotePlusChar c, quoteOutChar d = true := by
  intro d hd
  unfold quotePlusChar at hd
  split at hd
  · rename_i hsafe
    rcases List.mem_cons.mp hd with rfl | hd
    · unfold quoteOutChar
      rw [hsafe]
      simp
    · simp at hd
  · split at hd
    · rcases List.mem_cons.mp hd with rfl | hd
      · decide
      · simp at hd
    · split at hd
      · rename_i hlt
        exact pctByte_all_out c.toNat hlt d hd
      · rw [List.mem_flatten] at hd
        obtain ⟨piece, hp, hdp⟩ := hd
        rw [List.mem_map] at hp
        obtain ⟨b, hb, rfl⟩ := hp
        exact pctByte_all_out b (utf8Bytes_lt c b hb) d hdp

theorem quotePlus_all_out (s : List Char) : ∀ d ∈ quotePlus s, quoteOutChar d = true := by
  intro d hd
  unfold quotePlus at hd
  rw [List.mem_flatten] at hd
  obtain ⟨piece, hp, hdp⟩ := hd
  rw [List.mem_map] at hp
  obtain ⟨c, _, rfl⟩ := hp
  exact quotePlusChar_all_out c d hdp

theorem quotePlusChar_ne_nil (c : Char) : quotePlusChar c ≠ [] := by
  unfold quotePlusChar
  by_cases h1 : quoteSafeChar c = true
  · rw [if_pos h1]
    simp
  · rw [if_neg h1]
    by_cases h2 : c = ' '
    · rw [if_pos h2]
      simp
    · rw [if_neg h2]
      by_cases h3 : c.toNat < 256
      · rw [if_pos h3]
        simp [pctByte]
      · rw [if_neg h3]
        unfold utf8Bytes
        split
        · omega
        · split
          · simp [pctByte]
          · split <;> simp [pctByte]

theorem quotePlus_ne_nil (s : List Char) (h : s ≠ []) : quotePlus s ≠ [] := by
  rcases s with _ | ⟨c, t⟩
  · exact absurd rfl h
  · rw [quotePlus_cons]
    intro habs
    exact quotePlusChar_ne_nil c (List.append_eq_nil.mp habs).1

theorem quotePlus_of_safe (s : List Char) (h : ∀ c ∈ s, quoteSafeChar c = true) :
    quotePlus s = s := by
  induction s with
  | nil => rfl
  | cons c t ih =>
    rw [quotePlus_cons]
    have hc := h c (by simp)
    unfold quotePlusChar
    rw [if_pos hc]
    rw [ih (fun d hd => h d (List.mem_cons_of_mem _ hd))]
    rfl

theorem hexVal_lt (c : Char) (v : Nat) (h : hexVal c = some v) : v < 16 := by
  unfold hexVal at h
  split at h
  · rename_i hr
    cases h
    omega
  · split at h
    · rename_i hr
      cases h
      omega
    · split at h
      · rename_i hr
        cases h
        omega
      · cases h

theorem unquotePlus_quotePlus (s : List Char) (h : ∀ c ∈ s, c.toNat < 256) :
    unquotePlus (quotePlus s) = s := by
  induction s with
  | nil => rfl
  | cons c t ih =>
    have hct := ih (fun d hd => h d (List.mem_cons_of_mem _ hd))
    have hc256 := h c (by simp)
    rw [quotePlus_cons]
    unfold quotePlusChar
    by_cases hsafe : quoteSafeChar c = true
    · rw [if_pos hsafe]
      obtain ⟨h1, h2, _⟩ := quoteSafeChar_not_special c hsafe
      rw [List.cons_append, List.nil_append, unquotePlus_cons_ne c _ h1 h2, hct]
    · rw [if_neg hsafe]
      by_cases hsp : c = ' '
      · rw [if_pos hsp]
        subst hsp
        rw [List.cons_append, List.nil_append, unquotePlus_plus, hct]
      · rw [if_neg hsp, if_pos hc256]
        unfold pctByte
        simp only [List.cons_append, List.nil_append]
        rw [unquotePlus_pct _ _ _ _ _
          (hexVal_hexDigitChar (c.toNat / 16) (by omega))
          (hexVal_hexDigitChar (c.toNat % 16) (by omega))]
        rw [hct]
        have heq : 16 * (c.toNat / 16) + c.toNat % 16 = c.toNat := by omega
        rw [heq, Char.ofNat_toNat]

theorem unquotePlus_all_lt (s : List Char) (h : ∀ c ∈ s, c.toNat < 256) :
    ∀ c ∈ unquotePlus s, c.toNat < 256 := by
  induction s using unquotePlus.induct with
  | case1 =>
    intro c hc
    simp [unquotePlus] at hc
  | case2 hd lo rest2 hv lv hl hh ih =>
    rw [unquotePlus_pct hd lo rest2 hv lv hh hl]
    intro c hc
    rcases List.mem_cons.mp hc with rfl | hc
    · have hhv := hexVal_lt hd hv hh
      have hlv := hexVal_lt lo lv hl
      rw [char_toNat_ofNat _ (Or.inl (by omega))]
      omega
    · exact ih (fun d hd2 => h d (by simp [hd2])) c hc
  | case3 hd lo rest2 v hl hh ih =>
    have hstep : unquotePlus ('%' :: hd :: lo :: rest2) = '%' :: unquotePlus (hd :: lo :: rest2) := by
      simp [unquotePlus, hh, hl]
    rw [hstep]
    intro c hc
    rcases List.mem_cons.mp hc with rfl | hc
    · decide
    · exact ih (fun d hd2 => h d (by simp at hd2 ⊢; tauto)) c hc
  | case4 hd lo rest2 hh ih =>
    have hstep : unquotePlus ('%' :: hd :: lo :: rest2) = '%' :: unquotePlus (hd :: lo :: rest2) := by
      simp [unquotePlus, hh]
    rw [hstep]
    intro c hc
    rcases List.mem_cons.mp hc with rfl | hc
    · decide
    · exact ih (fun d hd2 => h d (by simp at hd2 ⊢; tauto)) c hc
  | case5 rest hne ih =>
    rw [unquotePlus_plus]
    intro c hc
    rcases List.mem_cons.mp hc with rfl | hc
    · decide
    · exact ih (fun d hd2 => h d (by simp [hd2])) c hc
  | case6 c0 rest hne hplus ih =>
    have hstep : unquotePlus (c0 :: rest) = c0 :: unquotePlus rest := by
      by_cases hp : c0 = '%'
      · subst hp
        rcases rest with _ | ⟨x, _ | ⟨y, t⟩⟩
        · simp [unquotePlus]
        · simp [unquotePlus]
        · exact (hne x y t rfl rfl).elim
      · exact unquotePlus_cons_ne c0 rest hp hplus
    rw [hstep]
    intro c hc
    rcases List.mem_cons.mp hc with rfl | hc
    · exact h c (by simp)
    · exact ih (fun d hd2 => h d (by simp [hd2])) c hc

theorem unquotePlus_cons_short (c0 : Char) (rest : List Char)
    (hne : ∀ x y t, c0 = '%' → rest = x :: y :: t → False) (hplus : c0 ≠ '+') :
    unquotePlus (c0 :: rest) = c0 :: unquotePlus rest := by
  by_cases hp : c0 = '%'
  · subst hp
    rcases rest with _ | ⟨x, _ | ⟨y, t⟩⟩
    · simp [unquotePlus]
    · simp [unquotePlus]
    · exact (hne x y t rfl rfl).elim
  · exact unquotePlus_cons_ne c0 rest hp hplus

theorem unquotePlus_ne_nil (s : List Char) (h : s ≠ []) : unquotePlus s ≠ [] := by
  induction s using unquotePlus.induct with
  | case1 => exact absurd rfl h
  | case2 hd lo rest2 hv lv hl hh ih =>
    rw [unquotePlus_pct hd lo rest2 hv lv hh hl]
    simp
  | case3 hd lo rest2 v hl hh ih =>
    simp [unquotePlus, hh, hl]
  | case4 hd lo rest2 hh ih =>
    simp [unquotePlus, hh]
  | case5 rest hne ih =>
    rw [unquotePlus_plus]
    simp
  | case6 c0 rest hne hplus ih =>
    rw [unquotePlus_cons_short c0 rest hne hplus]
    simp

theorem splitFirst_none (sep : Char) (l : List Char) :
    splitFirst sep l = none ↔ ∀ c ∈ l, c ≠ sep := by
  induction l with
  | nil => simp [splitFirst]
  | cons c rest ih =>
    by_cases hc : c = sep
    · subst hc
      simp [splitFirst]
    · simp only [splitFirst, if_neg hc]
      constructor
      · intro h d hd
        rcases List.mem_cons.mp hd with rfl | hd
        · exact hc
        · rcases hr : splitFirst sep rest with _ | p
          · exact (ih.mp hr) d hd
          · rw [hr] at h
            simp at h
      · intro h
        have : splitFirst sep rest = none := ih.mpr (fun d hd => h d (List.mem_cons_of_mem _ hd))
        rw [this]
        rfl

theorem splitFirst_some (sep : Char) (l pre post : List Char)
    (h : splitFirst sep l = some (pre, post)) :
    l = pre ++ sep :: post ∧ ∀ c ∈ pre, c ≠ sep := by
  induction l generalizing pre with
  | nil => simp [splitFirst] at h
  | cons c rest ih =>
    by_cases hc : c = sep
    · subst hc
      simp [splitFirst] at h
      obtain ⟨h1, h2⟩ := h
      subst h1
      subst h2
      exact ⟨rfl, by simp⟩
    · simp only [splitFirst, if_neg hc] at h
      rcases hr : splitFirst sep rest with _ | p
      · rw [hr] at h
        simp at h
      · rw [hr] at h
        simp at h
        obtain ⟨h1, h2⟩ := h
        obtain ⟨hl, hp⟩ := ih p.1 (by rw [hr, ← h2])
        subst h1
        constructor
        · rw [List.cons_append, ← hl]
        · intro d hd
          rcases List.mem_cons.mp hd with rfl | hd
          · exact hc
          · exact hp d hd

theorem splitFirst_append_sep (sep : Char) (a b : List Char) (ha : ∀ c ∈ a, c ≠ sep) :
    splitFirst sep (a ++ sep :: b) = some (a, b) := by
  induction a with
  | nil => simp [splitFirst]
  | cons c rest ih =>
    have hc : c ≠ sep := ha c (by simp)
    simp only [List.cons_append, splitFirst, if_neg hc, List.append_eq]
    rw [ih (fun d hd => ha d (List.mem_cons_of_mem _ hd))]
    rfl

theorem splitOnAmp_no_amp (p : List Char) (h : ∀ c ∈ p, c ≠ '&') :
    splitOnAmp p = [p] := by
  induction p with
  | nil => rfl
  | cons c rest ih =>
    have hc : c ≠ '&' := h c (by simp)
    simp only [splitOnAmp, if_neg hc]
    rw [ih (fun d hd => h d (List.mem_cons_of_mem _ hd))]

theorem splitOnAmp_append_amp (p X : List Char) (h : ∀ c ∈ p, c ≠ '&') :
    splitOnAmp (p ++ '&' :: X) = p :: splitOnAmp X := by
  induction p with
  | nil => simp [splitOnAmp]
  | cons c rest ih =>
    have hc : c ≠ '&' := h c (by simp)
    simp only [List.cons_append, splitOnAmp, if_neg hc, List.append_eq]
    rw [ih (fun d hd => h d (List.mem_cons_of_mem _ hd))]

theorem splitOnAmp_joinAmp (pieces : List (List Char)) (hne : pieces ≠ [])
    (hp : ∀ p ∈ pieces, ∀ c ∈ p, c ≠ '&') :
    splitOnAmp (joinAmp pieces) = pieces := by
  induction pieces with
  | nil => exact absurd rfl hne
  | cons p ps ih =>
    rcases ps with _ | ⟨q, qs⟩
    · show splitOnAmp (joinAmp [p]) = [p]
      rw [show joinAmp [p] = p from rfl]
      exact splitOnAmp_no_amp p (hp p (by simp))
    · rw [show joinAmp (p :: q :: qs) = p ++ '&' :: joinAmp (q :: qs) from rfl]
      rw [splitOnAmp_append_amp p _ (hp p (by simp))]
      rw [ih (by simp) (fun r hr c hc => hp r (List.mem_cons_of_mem _ hr) c hc)]

theorem parseQsl_urlencode (flat : List (List Char × List Char))
    (hk : ∀ p ∈ flat, (∀ c ∈ p.1, c.toNat < 256) ∧ (∀ c ∈ p.2, c.toNat < 256) ∧ p.2 ≠ []) :
    parseQsl (urlencode flat) = flat := by
  rcases hfe : flat with _ | ⟨p0, ps0⟩
  · rfl
  rw [← hfe]
  have hne : flat.map (fun q => quotePlus q.1 ++ '=' :: quotePlus q.2) ≠ [] := by
    rw [hfe]
    simp
  have hnoamp : ∀ piece ∈ flat.map (fun q => quotePlus q.1 ++ '=' :: quotePlus q.2),
      ∀ c ∈ piece, c ≠ '&' := by
    intro piece hpmem c hc
    rw [List.mem_map] at hpmem
    obtain ⟨q, hq, rfl⟩ := hpmem
    rcases List.mem_append.mp hc with hc | hc
    · exact (quoteOutChar_not_special c (quotePlus_all_out q.1 c hc)).1
    · rcases List.mem_cons.mp hc with rfl | hc
      · decide
      · exact (quoteOutChar_not_special c (quotePlus_all_out q.2 c hc)).1
  unfold parseQsl urlencode
  rw [splitOnAmp_joinAmp _ hne hnoamp]
  rw [List.filterMap_map]
  have : ∀ p ∈ flat,
      ((fun piece =>
        match splitFirst '=' piece with
        | none => none
        | some (nm, v) =>
          if v = [] then none else some (unquotePlus nm, unquotePlus v)) ∘
        (fun q => quotePlus q.1 ++ '=' :: quotePlus q.2)) p = some p := by
    intro p hp
    obtain ⟨hk1, hk2, hk3⟩ := hk p hp
    have hnoeq : ∀ c ∈ quotePlus p.1, c ≠ '=' :=
      fun c hc => (quoteOutChar_not_special c (quotePlus_all_out p.1 c hc)).2.1
    show (match splitFirst '=' (quotePlus p.1 ++ '=' :: quotePlus p.2) with
      | none => none
      | some (nm, v) => if v = [] then none else some (unquotePlus nm, unquotePlus v)) = some p
    rw [splitFirst_append_sep _ _ _ hnoeq]
    show (if quotePlus p.2 = [] then none
      else some (unquotePlus (quotePlus p.1), unquotePlus (quotePlus p.2))) = some p
    rw [if_neg (quotePlus_ne_nil p.2 hk3)]
    rw [unquotePlus_quotePlus p.1 hk1, unquotePlus_quotePlus p.2 hk2]
  calc List.filterMap _ flat = List.filterMap some flat := by
        apply List.filterMap_congr
        intro p hp
        exact this p hp
    _ = flat := List.filterMap_some flat

theorem groupParams_core (prs : List (List Char × List Char))
    (acc : List (List Char × List (List Char)))
    (hnd : (prs.map Prod.fst).Nodup)
    (hdisj : ∀ p ∈ prs, ∀ q ∈ acc, q.1 ≠ p.1) :
    prs.foldl (fun acc p =>
      if acc.any (fun q => q.1 == p.1) then
        acc.map (fun q => if q.1 == p.1 then (q.1, q.2 ++ [p.2]) else q)
      else acc ++ [(p.1, [p.2])]) acc
    = acc ++ prs.map (fun p => (p.1, [p.2])) := by
  induction prs generalizing acc with
  | nil => simp
  | cons p rest ih =>
    rw [List.map_cons] at hnd
    have hnd2 := List.nodup_cons.mp hnd
    have hnotin : (acc.any (fun q => q.1 == p.1)) = false := by
      rw [List.any_eq_false]
      intro q hq
      simpa using hdisj p (by simp) q hq
    rw [List.foldl_cons, hnotin]
    simp only [Bool.false_eq_true, if_false]
    rw [ih]
    · simp
    · exact hnd2.2
    · intro r hr q hq
      rcases List.mem_append.mp hq with hq | hq
      · exact hdisj r (List.mem_cons_of_mem _ hr) q hq
      · rcases List.mem_singleton.mp hq with rfl
        show p.1 ≠ r.1
        intro habs
        have hp1 : p.1 ∈ rest.map Prod.fst := by
          rw [habs]
          exact List.mem_map.mpr ⟨r, hr, rfl⟩
        exact hnd2.1 hp1

theorem groupParams_of_nodup (prs : List (List Char × List Char))
    (hnd : (prs.map Prod.fst).Nodup) :
    groupParams prs = prs.map (fun p => (p.1, [p.2])) := by
  unfold groupParams
  rw [groupParams_core prs [] hnd (by simp)]
  simp

theorem groupCore_keys_nodup (prs : List (List Char × List Char))
    (acc : List (List Char × List (List Char))) (hacc : (acc.map Prod.fst).Nodup) :
    ((prs.foldl (fun acc p =>
      if acc.any (fun q => q.1 == p.1) then
        acc.map (fun q => if q.1 == p.1 then (q.1, q.2 ++ [p.2]) else q)
      else acc ++ [(p.1, [p.2])]) acc).map Prod.fst).Nodup := by
  induction prs generalizing acc with
  | nil => exact hacc
  | cons p rest ih =>
    rw [List.foldl_cons]
    by_cases ha : acc.any (fun q => q.1 == p.1) = true
    · rw [if_pos ha]
      apply ih
      have hkeys : (acc.map (fun q => if q.1 == p.1 then (q.1, q.2 ++ [p.2]) else q)).map
          Prod.fst = acc.map Prod.fst := by
        rw [List.map_map]
        apply List.map_congr_left
        intro q _
        show (if q.1 == p.1 then (q.1, q.2 ++ [p.2]) else q).1 = q.1
        split <;> rfl
      rw [hkeys]
      exact hacc
    · rw [if_neg ha]
      apply ih
      rw [List.map_append]
      rw [List.nodup_append]
      refine ⟨hacc, by simp, ?_⟩
      intro x hx
      simp only [List.map_cons, List.map_nil, List.mem_singleton]
      intro habs
      subst habs
      rw [List.mem_map] at hx
      obtain ⟨q, hq, hq1⟩ := hx
      rw [Bool.not_eq_true, List.any_eq_false] at ha
      have hqq := ha q hq
      simp only [beq_iff_eq] at hqq
      exact hqq hq1

theorem groupParams_keys_nodup (prs : List (List Char × List Char)) :
    ((groupParams prs).map Prod.fst).Nodup :=
  groupCore_keys_nodup prs [] (by simp)

theorem groupCore_pred (P Q : List Char → Prop) (prs : List (List Char × List Char))
    (acc : List (List Char × List (List Char)))
    (hprs : ∀ p ∈ prs, P p.1 ∧ Q p.2)
    (hacc : ∀ q ∈ acc, P q.1 ∧ q.2 ≠ [] ∧ ∀ v ∈ q.2, Q v) :
    ∀ q ∈ prs.foldl (fun acc p =>
      if acc.any (fun q => q.1 == p.1) then
        acc.map (fun q => if q.1 == p.1 then (q.1, q.2 ++ [p.2]) else q)
      else acc ++ [(p.1, [p.2])]) acc,
    P q.1 ∧ q.2 ≠ [] ∧ ∀ v ∈ q.2, Q v := by
  induction prs generalizing acc with
  | nil => exact hacc
  | cons p rest ih =>
    rw [List.foldl_cons]
    have hp := hprs p (by simp)
    have hrest : ∀ r ∈ rest, P r.1 ∧ Q r.2 :=
      fun r hr => hprs r (List.mem_cons_of_mem _ hr)
    split
    · apply ih _ hrest
      intro q hq
      rw [List.mem_map] at hq
      obtain ⟨q0, hq0, rfl⟩ := hq
      obtain ⟨hP, hne, hQ⟩ := hacc q0 hq0
      show P (if q0.1 == p.1 then (q0.1, q0.2 ++ [p.2]) else q0).1 ∧ _
      split
      · refine ⟨hP, by simp, ?_⟩
        intro v hv
        rcases List.mem_append.mp hv with hv | hv
        · exact hQ v hv
        · rcases List.mem_singleton.mp hv with rfl
          exact hp.2
      · exact ⟨hP, hne, hQ⟩
    · apply ih _ hrest
      intro q hq
      rcases List.mem_append.mp hq with hq | hq
      · exact hacc q hq
      · rcases List.mem_singleton.mp hq with rfl
        refine ⟨hp.1, by simp, ?_⟩
        intro v hv
        rcases List.mem_singleton.mp hv with rfl
        exact hp.2

theorem groupParams_pred (P Q : List Char → Prop) (prs : List (List Char × List Char))
    (hprs : ∀ p ∈ prs, P p.1 ∧ Q p.2) :
    ∀ q ∈ groupParams prs, P q.1 ∧ q.2 ≠ [] ∧ ∀ v ∈ q.2, Q v :=
  groupCore_pred P Q prs [] hprs (by simp)

theorem findParam_none_iff (params : List (List Char × List (List Char))) (k : List Char) :
    findParam params k = none ↔ params.any (fun q => q.1 == k) = false := by
  simp [findParam, List.find?_eq_none, List.any_eq_false]

theorem setdefault_findParam_of_some (params : List (List Char × List (List Char)))
    (k2 : List Char) (v : List (List Char)) (k : List Char) (q : List Char × List (List Char))
    (h : findParam params k = some q) :
    findParam (setdefault params k2 v) k = some q := by
  unfold setdefault
  split
  · exact h
  · unfold findParam at h ⊢
    rw [List.find?_append, h]
    simp

theorem setdefault_findParam_self_of_none (params : List (List Char × List (List Char)))
    (k : List Char) (v : List (List Char)) (h : findParam params k = none) :
    findParam (setdefault params k v) k = some (k, v) := by
  unfold setdefault
  rw [if_neg (by rw [(findParam_none_iff params k).mp h]; simp)]
  unfold findParam at h ⊢
  rw [List.find?_append, h]
  simp

theorem setdefault_findParam_other (params : List (List Char × List (List Char)))
    (k2 : List Char) (v : List (List Char)) (k : List Char) (hk : k ≠ k2) :
    findParam (setdefault params k2 v) k = findParam params k := by
  unfold setdefault
  split
  · rfl
  · unfold findParam
    rw [List.find?_append]
    rcases hf : params.find? (fun q => q.1 == k) with _ | q
    · have hkv : (((k2, v) : List Char × List (List Char)).1 == k) = false := by
        simp only [beq_eq_false_iff_ne, ne_eq]
        exact fun habs => hk habs.symm
      simp [List.find?_cons, hkv]
    · rw [hf]
      simp

theorem setdefault_keys_nodup (params : List (List Char × List (List Char)))
    (k : List Char) (v : List (List Char)) (h : (params.map Prod.fst).Nodup) :
    ((setdefault params k v).map Prod.fst).Nodup := by
  unfold setdefault
  split
  · exact h
  · rename_i hany
    rw [List.map_append, List.nodup_append]
    refine ⟨h, by simp, ?_⟩
    intro x hx
    simp only [List.map_cons, List.map_nil, List.mem_singleton]
    intro habs
    subst habs
    rw [List.mem_map] at hx
    obtain ⟨q, hq, hq1⟩ := hx
    rw [Bool.not_eq_true, List.any_eq_false] at hany
    have hqq := hany q hq
    simp only [beq_iff_eq] at hqq
    exact hqq hq1

theorem setdefault_pred (P Q : List Char → Prop) (params : List (List Char × List (List Char)))
    (k : List Char) (v : List (List Char))
    (hall : ∀ q ∈ params, P q.1 ∧ q.2 ≠ [] ∧ ∀ w ∈ q.2, Q w)
    (hk : P k) (hv : v ≠ [] ∧ ∀ w ∈ v, Q w) :
    ∀ q ∈ setdefault params k v, P q.1 ∧ q.2 ≠ [] ∧ ∀ w ∈ q.2, Q w := by
  unfold setdefault
  split
  · exact hall
  · intro q hq
    rcases List.mem_append.mp hq with hq | hq
    · exact hall q hq
    · rcases List.mem_singleton.mp hq with rfl
      exact ⟨hk, hv.1, hv.2⟩

theorem setdefault_mem_key (params : List (List Char × List (List Char)))
    (k : List Char) (v : List (List Char)) :
    (findParam (setdefault params k v) k).isSome = true := by
  rcases hf : findParam params k with _ | q
  · rw [setdefault_findParam_self_of_none params k v hf]
    rfl
  · rw [setdefault_findParam_of_some params k v k q hf]
    rfl

theorem flatParams_findParam (params : List (List Char × List (List Char))) (k : List Char) :
    (flatParams params).find? (fun q => q.1 == k)
      = (findParam params k).map (fun q => (q.1, q.2.headD [])) := by
  unfold flatParams findParam
  rw [List.find?_map]
  rfl

theorem flatParams_keys (params : List (List Char × List (List Char))) :
    (flatParams params).map Prod.fst = params.map Prod.fst := by
  unfold flatParams
  rw [List.map_map]
  rfl

theorem lowerChar_eq_of_upper (c : Char) (h : 65 ≤ c.toNat ∧ c.toNat ≤ 90) :
    lowerChar c = Char.ofNat (c.toNat + 32) := by
  unfold lowerChar
  exact if_pos ⟨h.1, h.2⟩

theorem lowerChar_eq_self_of (c : Char) (h : ¬(65 ≤ c.toNat ∧ c.toNat ≤ 90)) :
    lowerChar c = c := by
  unfold lowerChar
  exact if_neg (fun hc => h ⟨hc.1, hc.2⟩)

theorem lowerChar_toNat_of_upper (c : Char) (h : 65 ≤ c.toNat ∧ c.toNat ≤ 90) :
    (lowerChar c).toNat = c.toNat + 32 := by
  rw [lowerChar_eq_of_upper c h, char_toNat_ofNat _ (Or.inl (by omega))]

theorem lowerChar_idem (c : Char) : lowerChar (lowerChar c) = lowerChar c := by
  by_cases h : 65 ≤ c.toNat ∧ c.toNat ≤ 90
  · have ht := lowerChar_toNat_of_upper c h
    apply lowerChar_eq_self_of
    omega
  · rw [lowerChar_eq_self_of c h]
    exact lowerChar_eq_self_of c h

theorem lowerStr_idem (s : List Char) : lowerStr (lowerStr s) = lowerStr s := by
  unfold lowerStr
  rw [List.map_map]
  apply List.map_congr_left
  intro c _
  exact lowerChar_idem c

theorem isAlpha_lowerChar (c : Char) (h : c.isAlpha = true) :
    (lowerChar c).isAlpha = true := by
  by_cases hu : 65 ≤ c.toNat ∧ c.toNat ≤ 90
  · have ht := lowerChar_toNat_of_upper c hu
    have hlow : (lowerChar c).isLower = true := by
      unfold Char.isLower
      rw [Bool.and_eq_true, decide_eq_true_iff, decide_eq_true_iff]
      exact ⟨show (97 : Nat) ≤ (lowerChar c).toNat by omega,
             show (lowerChar c).toNat ≤ 122 by omega⟩
    unfold Char.isAlpha
    rw [hlow]
    simp
  · rw [lowerChar_eq_self_of c hu]
    exact h

theorem schemeChar_lowerChar (c : Char) (h : schemeChar c = true) :
    schemeChar (lowerChar c) = true := by
  by_cases hu : 65 ≤ c.toNat ∧ c.toNat ≤ 90
  · have ht := lowerChar_toNat_of_upper c hu
    have hlow : (lowerChar c).isLower = true := by
      unfold Char.isLower
      rw [Bool.and_eq_true, decide_eq_true_iff, decide_eq_true_iff]
      exact ⟨show (97 : Nat) ≤ (lowerChar c).toNat by omega,
             show (lowerChar c).toNat ≤ 122 by omega⟩
    unfold schemeChar Char.isAlpha
    rw [hlow]
    simp
  · rw [lowerChar_eq_self_of c hu]
    exact h

theorem schemeChar_ne_delims (c : Char) (h : schemeChar c = true) :
    c ≠ ':' ∧ c ≠ '/' ∧ c ≠ '?' ∧ c ≠ '#' ∧ c ≠ '&' ∧ c ≠ '=' := by
  refine ⟨?_, ?_, ?_, ?_, ?_, ?_⟩ <;> (intro hc; subst hc; revert h; decide)

theorem splitFirst_append_no (sep : Char) (a b : List Char) (ha : ∀ c ∈ a, c ≠ sep) :
    splitFirst sep (a ++ b) = (splitFirst sep b).map (fun q => (a ++ q.1, q.2)) := by
  induction a with
  | nil =>
    simp only [List.nil_append]
    rcases h : splitFirst sep b with _ | q
    · rfl
    · simp
  | cons c rest ih =>
    have hc : c ≠ sep := ha c (by simp)
    simp only [List.cons_append, splitFirst, if_neg hc, List.append_eq]
    rw [ih (fun d hd => ha d (List.mem_cons_of_mem _ hd))]
    rcases h : splitFirst sep b with _ | q
    · rfl
    · simp

theorem takeWhile_dropWhile_append (p : Char → Bool) (as bs : List Char)
    (h : ∀ c ∈ as, p c = true)
    (hb : bs = [] ∨ ∃ d ds, bs = d :: ds ∧ p d = false) :
    (as ++ bs).takeWhile p = as ∧ (as ++ bs).dropWhile p = bs := by
  induction as with
  | nil =>
    simp only [List.nil_append]
    rcases hb with rfl | ⟨d, ds, rfl, hd⟩
    · simp
    · rw [List.takeWhile_cons, List.dropWhile_cons, hd]
      simp
  | cons c rest ih =>
    have hc : p c = true := h c (by simp)
    rw [List.cons_append, List.takeWhile_cons, List.dropWhile_cons, hc]
    obtain ⟨h1, h2⟩ := ih (fun d hd => h d (List.mem_cons_of_mem _ hd))
    rw [h1, h2]
    simp

theorem extractScheme_valid (sch rest : List Char) (h1 : sch ≠ [])
    (h2 : (sch.headD ' ').isAlpha = true) (h3 : ∀ c ∈ sch, schemeChar c = true)
    (h4 : lowerStr sch = sch) :
    extractScheme (sch ++ ':' :: rest) = (sch, rest) := by
  rcases sch with _ | ⟨c, cs⟩
  · exact absurd rfl h1
  · have hnc : ∀ d ∈ c :: cs, d ≠ ':' := fun d hd => (schemeChar_ne_delims d (h3 d hd)).1
    unfold extractScheme
    rw [splitFirst_append_sep ':' (c :: cs) rest hnc]
    have hca : c.isAlpha = true := by simpa using h2
    have hall : (c :: cs).all schemeChar = true := List.all_eq_true.mpr h3
    show (if c.isAlpha ∧ (c :: cs).all schemeChar then (lowerStr (c :: cs), rest)
      else ([], (c :: cs) ++ ':' :: rest)) = (c :: cs, rest)
    rw [if_pos ⟨hca, hall⟩, h4]

theorem extractScheme_invalid (url : List Char)
    (h : ∀ pre post, splitFirst ':' url = some (pre, post) →
         pre = [] ∨ (pre.headD ' ').isAlpha = false ∨ (∃ c ∈ pre, schemeChar c = false)) :
    extractScheme url = ([], url) := by
  unfold extractScheme
  rcases hs : splitFirst ':' url with _ | ⟨pre, post⟩
  · rfl
  · rcases hpre : pre with _ | ⟨c, cs⟩
    · rfl
    · subst hpre
      have hbad : ¬(c.isAlpha = true ∧ (c :: cs).all schemeChar = true) := by
        rcases h (c :: cs) post hs with h0 | h0 | ⟨d, hd, hdc⟩
        · cases h0
        · simp only [List.headD_cons] at h0
          intro ⟨ha, _⟩
          rw [h0] at ha
          cases ha
        · intro ⟨_, hall⟩
          have := List.all_eq_true.mp hall d hd
          rw [hdc] at this
          cases this
      show (if c.isAlpha ∧ (c :: cs).all schemeChar then (lowerStr (c :: cs), post)
        else ([], url)) = ([], url)
      exact if_neg hbad

theorem extractScheme_head_bad (url : List Char)
    (h : url = [] ∨ ∃ c cs, url = c :: cs ∧ (c = ':' ∨ c.isAlpha = false)) :
    extractScheme url = ([], url) := by
  apply extractScheme_invalid
  intro pre post hs
  obtain ⟨hdec, hnc⟩ := splitFirst_some ':' url pre post hs
  rcases h with rfl | ⟨c, cs, rfl, hc⟩
  · rcases pre with _ | _
    · exact Or.inl rfl
    · simp at hdec
  · rcases hpre : pre with _ | ⟨d, ds⟩
    · exact Or.inl rfl
    · rcases hc with hc | hc
      · subst hpre
        rw [List.cons_append] at hdec
        have hcd : c = d := by
          injection hdec
        have := hnc d (by simp)
        rw [← hcd] at this
        exact absurd hc this
      · subst hpre
        rw [List.cons_append] at hdec
        have hcd : c = d := by injection hdec
        refine Or.inr (Or.inl ?_)
        simp only [List.headD_cons]
        rw [← hcd]
        exact hc

theorem extractNetloc_part (net tail : List Char) (hn : ∀ c ∈ net, netlocChar c = true)
    (htail : tail = [] ∨ ∃ d ds, tail = d :: ds ∧ netlocChar d = false) :
    extractNetloc ('/' :: '/' :: (net ++ tail)) = (net, tail) := by
  unfold extractNetloc
  rw [if_pos (by simp)]
  obtain ⟨h1, h2⟩ := takeWhile_dropWhile_append netlocChar net tail hn htail
  simp only [List.drop_succ_cons, List.drop_zero]
  rw [h1, h2]

theorem extractNetloc_no (rest : List Char) (h : rest.take 2 ≠ ['/', '/']) :
    extractNetloc rest = ([], rest) := by
  unfold extractNetloc
  rw [if_neg h]

theorem extractFragment_append (a b : List Char) (ha : ∀ c ∈ a, c ≠ '#') :
    extractFragment (a ++ '#' :: b) = (a, b) := by
  unfold extractFragment
  rw [splitFirst_append_sep '#' a b ha]

theorem extractFragment_no (a : List Char) (ha : ∀ c ∈ a, c ≠ '#') :
    extractFragment a = (a, []) := by
  unfold extractFragment
  rw [(splitFirst_none '#' a).mpr ha]

theorem extractQuery_append (a b : List Char) (ha : ∀ c ∈ a, c ≠ '?') :
    extractQuery (a ++ '?' :: b) = (a, b) := by
  unfold extractQuery
  rw [splitFirst_append_sep '?' a b ha]

theorem extractQuery_no (a : List Char) (ha : ∀ c ∈ a, c ≠ '?') :
    extractQuery a = (a, []) := by
  unfold extractQuery
  rw [(splitFirst_none '?' a).mpr ha]

theorem urlunparse_decompose (p : UrlParts)
    (hs1 : p.scheme ≠ [])
    (hpn : p.netloc ≠ [] → p.path = [] ∨ p.path.take 1 = ['/']) :
    urlunparse p = p.scheme ++ ':' ::
      ((if p.netloc ≠ [] ∨ p.path.take 2 = ['/', '/'] then
          '/' :: '/' :: (p.netloc ++ p.path) else p.path) ++
       ((if p.query ≠ [] then '?' :: p.query else []) ++
        (if p.fragment ≠ [] then '#' :: p.fragment else []))) := by
  have hadj : (p.netloc ≠ [] ∨ p.path.take 2 = ['/', '/']) →
      (if p.path ≠ [] ∧ p.path.take 1 ≠ ['/'] then '/' :: p.path else p.path) = p.path := by
    intro hb
    rcases hpath : p.path with _ | ⟨c, cs⟩
    · rw [if_neg]
      simp
    · have hc : c = '/' := by
        rcases hb with hb | hb
        · rcases hpn hb with h0 | h0
          · rw [hpath] at h0
            cases h0
          · rw [hpath] at h0
            simpa using h0
        · rw [hpath] at hb
          rcases cs with _ | ⟨d, ds⟩
          · simp at hb
          · have : c = '/' ∧ d = '/' := by
              simpa using hb
            exact this.1
      rw [if_neg]
      intro hcon
      exact hcon.2 (by rw [hc]; rfl)
  simp only [urlunparse]
  by_cases hb : p.netloc ≠ [] ∨ p.path.take 2 = ['/', '/']
  · rw [if_pos hb, hadj hb, if_pos hs1]
    by_cases hqe : p.query ≠ []
    · rw [if_pos hqe]
      by_cases hfe : p.fragment ≠ []
      · rw [if_pos hfe, if_pos hb, if_pos hqe, if_pos hfe]
        simp [List.append_assoc]
      · rw [if_neg hfe, if_pos hb, if_pos hqe, if_neg hfe]
        simp [List.append_assoc]
    · rw [if_neg hqe]
      by_cases hfe : p.fragment ≠ []
      · rw [if_pos hfe, if_pos hb, if_neg hqe, if_pos hfe]
        simp [List.append_assoc]
      · rw [if_neg hfe, if_pos hb, if_neg hqe, if_neg hfe]
        simp
  · rw [if_neg hb, if_pos hs1]
    by_cases hqe : p.query ≠ []
    · rw [if_pos hqe]
      by_cases hfe : p.fragment ≠ []
      · rw [if_pos hfe, if_neg hb, if_pos hqe, if_pos hfe]
        simp [List.append_assoc]
      · rw [if_neg hfe, if_neg hb, if_pos hqe, if_neg hfe]
        simp [List.append_assoc]
    · rw [if_neg hqe]
      by_cases hfe : p.fragment ≠ []
      · rw [if_pos hfe, if_neg hb, if_neg hqe, if_pos hfe]
        simp [List.append_assoc]
      · rw [if_neg hfe, if_neg hb, if_neg hqe, if_neg hfe]
        simp

theorem urlparse_urlunparse (p : UrlParts)
    (hs1 : p.scheme ≠ []) (hs2 : (p.scheme.headD ' ').isAlpha = true)
    (hs3 : ∀ c ∈ p.scheme, schemeChar c = true) (hs4 : lowerStr p.scheme = p.scheme)
    (hn : ∀ c ∈ p.netloc, netlocChar c = true)
    (hp : ∀ c ∈ p.path, c ≠ '?' ∧ c ≠ '#')
    (hq : ∀ c ∈ p.query, c ≠ '#')
    (hpn : p.netloc ≠ [] → p.path = [] ∨ p.path.take 1 = ['/']) :
    urlparse (urlunparse p) = p := by
  have hout := urlunparse_decompose p hs1 hpn
  have h1 : extractScheme (urlunparse p) =
      (p.scheme, (if p.netloc ≠ [] ∨ p.path.take 2 = ['/', '/'] then
          '/' :: '/' :: (p.netloc ++ p.path) else p.path) ++
        ((if p.query ≠ [] then '?' :: p.query else []) ++
         (if p.fragment ≠ [] then '#' :: p.fragment else []))) := by
    rw [hout]
    exact extractScheme_valid _ _ hs1 hs2 hs3 hs4
  have htail : (p.path ++ ((if p.query ≠ [] then '?' :: p.query else []) ++
      (if p.fragment ≠ [] then '#' :: p.fragment else []))) = [] ∨
      ∃ d ds, (p.path ++ ((if p.query ≠ [] then '?' :: p.query else []) ++
      (if p.fragment ≠ [] then '#' :: p.fragment else []))) = d :: ds ∧
      (p.netloc ≠ [] ∨ p.path.take 2 = ['/', '/'] → netlocChar d = false) := by
    rcases hpath : p.path with _ | ⟨c, cs⟩
    · by_cases hqe : p.query ≠ []
      · rw [if_pos hqe]
        refine Or.inr ⟨'?', p.query ++ (if p.fragment ≠ [] then '#' :: p.fragment else []),
          by simp, fun _ => by decide⟩
      · rw [if_neg hqe]
        by_cases hfe : p.fragment ≠ []
        · rw [if_pos hfe]
          refine Or.inr ⟨'#', p.fragment, by simp, fun _ => by decide⟩
        · rw [if_neg hfe]
          exact Or.inl rfl
    · refine Or.inr ⟨c, cs ++ ((if p.query ≠ [] then '?' :: p.query else []) ++
        (if p.fragment ≠ [] then '#' :: p.fragment else [])), by simp, fun hb => ?_⟩
      have hc : c = '/' := by
        rcases hb with hb | hb
        · rcases hpn hb with h0 | h0
          · rw [hpath] at h0
            cases h0
          · rw [hpath] at h0
            simpa using h0
        · rcases cs with _ | ⟨d, ds⟩
          · simp at hb
          · have : c = '/' ∧ d = '/' := by simpa using hb
            exact this.1
      rw [hc]
      decide
  have h2 : extractNetloc ((if p.netloc ≠ [] ∨ p.path.take 2 = ['/', '/'] then
        '/' :: '/' :: (p.netloc ++ p.path) else p.path) ++
      ((if p.query ≠ [] then '?' :: p.query else []) ++
       (if p.fragment ≠ [] then '#' :: p.fragment else []))) =
      (p.netloc, p.path ++ ((if p.query ≠ [] then '?' :: p.query else []) ++
       (if p.fragment ≠ [] then '#' :: p.fragment else []))) := by
    by_cases hb : p.netloc ≠ [] ∨ p.path.take 2 = ['/', '/']
    · rw [if_pos hb]
      have : ('/' :: '/' :: (p.netloc ++ p.path)) ++
          ((if p.query ≠ [] then '?' :: p.query else []) ++
           (if p.fragment ≠ [] then '#' :: p.fragment else [])) =
          '/' :: '/' :: (p.netloc ++ (p.path ++
          ((if p.query ≠ [] then '?' :: p.query else []) ++
           (if p.fragment ≠ [] then '#' :: p.fragment else [])))) := by
        simp [List.append_assoc]
      rw [this]
      apply extractNetloc_part _ _ hn
      rcases htail with h0 | ⟨d, ds, hds, hd⟩
      · exact Or.inl h0
      · exact Or.inr ⟨d, ds, hds, hd hb⟩
    · rw [if_neg hb]
      push_neg at hb
      obtain ⟨hnl, hpp⟩ := hb
      rw [hnl]
      apply extractNetloc_no
      intro hcon
      rcases hpath : p.path with _ | ⟨c, cs⟩
      · rw [hpath] at hcon
        simp only [List.nil_append] at hcon
        by_cases hqe : p.query ≠ []
        · rw [if_pos hqe] at hcon
          have : '?' = '/' := by
            have := congrArg (fun l => l.headD ' ') hcon
            simpa using this
          cases this
        · rw [if_neg hqe] at hcon
          by_cases hfe : p.fragment ≠ []
          · rw [if_pos hfe] at hcon
            have : '#' = '/' := by
              have := congrArg (fun l => l.headD ' ') hcon
              simpa using this
            cases this
          · rw [if_neg hfe] at hcon
            simp at hcon
      · rw [hpath] at hcon hpp
        rcases cs with _ | ⟨d, ds⟩
        · simp only [List.cons_append, List.nil_append, List.take_succ_cons] at hcon
          have hc : c = '/' := by
            have := congrArg (fun l => l.headD ' ') hcon
            simpa using this
          by_cases hqe : p.query ≠ []
          · rw [if_pos hqe] at hcon
            have : '?' = '/' := by
              have := congrArg (fun l => (l.drop 1).headD ' ') hcon
              simpa using this
            cases this
          · rw [if_neg hqe] at hcon
            by_cases hfe : p.fragment ≠ []
            · rw [if_pos hfe] at hcon
              have : '#' = '/' := by
                have := congrArg (fun l => (l.drop 1).headD ' ') hcon
                simpa using this
              cases this
            · rw [if_neg hfe] at hcon
              simp at hcon
        · apply hpp
          simp only [List.cons_append, List.take_succ_cons] at hcon ⊢
          simpa using hcon
  have h3 : extractFragment (p.path ++ ((if p.query ≠ [] then '?' :: p.query else []) ++
      (if p.fragment ≠ [] then '#' :: p.fragment else []))) =
      (p.path ++ (if p.query ≠ [] then '?' :: p.query else []), p.fragment) := by
    have hpq : ∀ c ∈ p.path ++ (if p.query ≠ [] then '?' :: p.query else []), c ≠ '#' := by
      intro c hc
      rcases List.mem_append.mp hc with hc | hc
      · exact (hp c hc).2
      · by_cases hqe : p.query ≠ []
        · rw [if_pos hqe] at hc
          rcases List.mem_cons.mp hc with rfl | hc
          · decide
          · exact hq c hc
        · rw [if_neg hqe] at hc
          cases hc
    by_cases hfe : p.fragment ≠ []
    · rw [if_pos hfe, ← List.append_assoc]
      exact extractFragment_append _ _ hpq
    · rw [if_neg hfe, List.append_nil]
      rw [extractFragment_no _ hpq]
      rcases hfrag : p.fragment with _ | _
      · rfl
      · rw [hfrag] at hfe
        exact absurd (by simp) hfe
  have h4 : extractQuery (p.path ++ (if p.query ≠ [] then '?' :: p.query else [])) =
      (p.path, p.query) := by
    have hpq : ∀ c ∈ p.path, c ≠ '?' := fun c hc => (hp c hc).1
    by_cases hqe : p.query ≠ []
    · rw [if_pos hqe]
      exact extractQuery_append _ _ hpq
    · rw [if_neg hqe, List.append_nil, extractQuery_no _ hpq]
      rcases hquery : p.query with _ | _
      · rfl
      · rw [hquery] at hqe
        exact absurd (by simp) hqe
  show UrlParts.mk (extractScheme (urlunparse p)).1 _ _ _ _ = p
  rw [h1]
  simp only []
  rw [h2]
  simp only []
  rw [h3]
  simp only []
  rw [h4]

theorem hasPre_append (p r : List Char) : hasPre p (p ++ r) = true :=
  (hasPre_iff p (p ++ r)).mpr ⟨r, rfl⟩

theorem dropWhile_head_false (p : Char → Bool) (l : List Char) :
    l.dropWhile p = [] ∨ ∃ d ds, l.dropWhile p = d :: ds ∧ p d = false := by
  induction l with
  | nil => exact Or.inl rfl
  | cons c cs ih =>
    by_cases hc : p c = true
    · rw [List.dropWhile_cons_of_pos hc]
      exact ih
    · rw [List.dropWhile_cons_of_neg hc]
      exact Or.inr ⟨c, cs, rfl, by simpa using hc⟩

theorem extractNetloc_cases (r : List Char) :
    extractNetloc r = ([], r) ∨
    ∃ t, r = '/' :: '/' :: t ∧
      extractNetloc r = (t.takeWhile netlocChar, t.dropWhile netlocChar) := by
  by_cases h : r.take 2 = ['/', '/']
  · rcases r with _ | ⟨a, _ | ⟨b, t⟩⟩
    · simp at h
    · simp at h
    · have hab : a = '/' ∧ b = '/' := by simpa using h
      refine Or.inr ⟨t, by rw [hab.1, hab.2], ?_⟩
      unfold extractNetloc
      rw [if_pos h]
      rfl
  · exact Or.inl (extractNetloc_no r h)

theorem extractNetloc_fst_wf (r : List Char) :
    ∀ c ∈ (extractNetloc r).1, netlocChar c = true := by
  rcases extractNetloc_cases r with h | ⟨t, _, h⟩
  · rw [h]
    intro c hc
    cases hc
  · rw [h]
    intro c hc
    exact List.mem_takeWhile_imp hc

theorem extractNetloc_rest_of_ne (r : List Char) (h : (extractNetloc r).1 ≠ []) :
    (extractNetloc r).2 = [] ∨
    ∃ d ds, (extractNetloc r).2 = d :: ds ∧ netlocChar d = false := by
  rcases extractNetloc_cases r with h0 | ⟨t, _, h0⟩
  · rw [h0] at h
    exact absurd rfl h
  · rw [h0]
    exact dropWhile_head_false netlocChar t

theorem extractNetloc_snd_sub (r : List Char) : ∀ c ∈ (extractNetloc r).2, c ∈ r := by
  rcases extractNetloc_cases r with h | ⟨t, ht, h⟩
  · rw [h]
    exact fun c hc => hc
  · rw [h, ht]
    intro c hc
    have : c ∈ t := (List.dropWhile_sublist netlocChar).mem hc
    simp [this]

theorem extractScheme_snd_sub (url : List Char) : ∀ c ∈ (extractScheme url).2, c ∈ url := by
  unfold extractScheme
  rcases hs : splitFirst ':' url with _ | ⟨pre, post⟩
  · exact fun c hc => hc
  · obtain ⟨hdec, _⟩ := splitFirst_some ':' url pre post hs
    rcases pre with _ | ⟨a, as⟩
    · exact fun c hc => hc
    · by_cases hcond : a.isAlpha = true ∧ ((a :: as).all schemeChar) = true
      · show ∀ c ∈ (if a.isAlpha ∧ (a :: as).all schemeChar then
            (lowerStr (a :: as), post) else ([], url)).2, c ∈ url
        rw [if_pos hcond]
        intro c hc
        rw [hdec]
        simp [hc]
      · show ∀ c ∈ (if a.isAlpha ∧ (a :: as).all schemeChar then
            (lowerStr (a :: as), post) else ([], url)).2, c ∈ url
        rw [if_neg hcond]
        exact fun c hc => hc

theorem extractFragment_fst_spec (r : List Char) :
    (extractFragment r).1 <+: r ∧ ∀ c ∈ (extractFragment r).1, c ≠ '#' := by
  unfold extractFragment
  rcases hs : splitFirst '#' r with _ | ⟨a, b⟩
  · exact ⟨List.prefix_refl r, (splitFirst_none '#' r).mp hs⟩
  · obtain ⟨hdec, hnc⟩ := splitFirst_some '#' r a b hs
    exact ⟨⟨'#' :: b, hdec.symm⟩, hnc⟩

theorem extractQuery_fst_spec (r : List Char) :
    (extractQuery r).1 <+: r ∧ ∀ c ∈ (extractQuery r).1, c ≠ '?' := by
  unfold extractQuery
  rcases hs : splitFirst '?' r with _ | ⟨a, b⟩
  · exact ⟨List.prefix_refl r, (splitFirst_none '?' r).mp hs⟩
  · obtain ⟨hdec, hnc⟩ := splitFirst_some '?' r a b hs
    exact ⟨⟨'?' :: b, hdec.symm⟩, hnc⟩

theorem extractQuery_snd_sub (r : List Char) : ∀ c ∈ (extractQuery r).2, c ∈ r := by
  unfold extractQuery
  rcases hs : splitFirst '?' r with _ | ⟨a, b⟩
  · intro c hc
    cases hc
  · obtain ⟨hdec, _⟩ := splitFirst_some '?' r a b hs
    intro c hc
    rw [hdec]
    simp [hc]

theorem urlparse_wf (url : List Char) :
    (∀ c ∈ (urlparse url).netloc, netlocChar c = true) ∧
    (∀ c ∈ (urlparse url).path, c ≠ '?' ∧ c ≠ '#') ∧
    (∀ c ∈ (urlparse url).query, c ≠ '#') ∧
    (∀ c ∈ (urlparse url).query, c ∈ url) ∧
    ((urlparse url).netloc ≠ [] → (urlparse url).path = [] ∨ (urlparse url).path.take 1 = ['/']) := by
  have hnet : (urlparse url).netloc = (extractNetloc (extractScheme url).2).1 := rfl
  have hpath : (urlparse url).path =
      (extractQuery (extractFragment (extractNetloc (extractScheme url).2).2).1).1 := rfl
  have hquery : (urlparse url).query =
      (extractQuery (extractFragment (extractNetloc (extractScheme url).2).2).1).2 := rfl
  have hfr := extractFragment_fst_spec (extractNetloc (extractScheme url).2).2
  have hqu := extractQuery_fst_spec (extractFragment (extractNetloc (extractScheme url).2).2).1
  refine ⟨?_, ?_, ?_, ?_, ?_⟩
  · rw [hnet]
    exact extractNetloc_fst_wf _
  · rw [hpath]
    intro c hc
    refine ⟨hqu.2 c hc, ?_⟩
    exact hfr.2 c (hqu.1.sublist.mem hc)
  · rw [hquery]
    intro c hc
    have hc1 : c ∈ (extractFragment (extractNetloc (extractScheme url).2).2).1 :=
      extractQuery_snd_sub _ c hc
    exact hfr.2 c hc1
  · rw [hquery]
    intro c hc
    have hc1 : c ∈ (extractFragment (extractNetloc (extractScheme url).2).2).1 :=
      extractQuery_snd_sub _ c hc
    have hc2 : c ∈ (extractNetloc (extractScheme url).2).2 := hfr.1.sublist.mem hc1
    have hc3 : c ∈ (extractScheme url).2 := extractNetloc_snd_sub _ c hc2
    exact extractScheme_snd_sub url c hc3
  · rw [hnet, hpath]
    intro hne
    rcases extractNetloc_rest_of_ne _ hne with h0 | ⟨d, ds, hds, hd⟩
    · left
      have hp1 := hfr.1
      nth_rewrite 2 [h0] at hp1
      have hf0 := List.prefix_nil.mp hp1
      have hq1 := hqu.1
      nth_rewrite 2 [hf0] at hq1
      exact List.prefix_nil.mp hq1
    · rcases hpq : (extractQuery (extractFragment (extractNetloc (extractScheme url).2).2).1).1
        with _ | ⟨c, cs⟩
      · exact Or.inl rfl
      · right
        have hpref : c :: cs <+: d :: ds := by
          rw [← hds, ← hpq]
          exact hqu.1.trans hfr.1
        have hcd : c = d := by
          obtain ⟨t, ht⟩ := hpref
          rw [List.cons_append] at ht
          injection ht
        have hc1 : c ≠ '?' := hqu.2 c (by rw [hpq]; simp)
        have hc2 : c ≠ '#' := hfr.2 c (hqu.1.sublist.mem (by rw [hpq]; simp))
        have hd' : d = '/' ∨ d = '?' ∨ d = '#' := by
          have := hd
          simp only [netlocChar] at this
          by_cases h4 : d = '/'
          · exact Or.inl h4
          by_cases h5 : d = '?'
          · exact Or.inr (Or.inl h5)
          by_cases h6 : d = '#'
          · exact Or.inr (Or.inr h6)
          rw [Bool.not_eq_false'] at this
          simp only [Bool.or_eq_true, decide_eq_true_eq] at this
          rcases this with (h | h) | h
          · exact absurd h h4
          · exact absurd h h5
          · exact absurd h h6
        have hcslash : c = '/' := by
          rw [hcd] at hc1 hc2 ⊢
          rcases hd' with h | h | h
          · exact h
          · exact absurd h hc1
          · exact absurd h hc2
        rw [hcslash]
        rfl

theorem urlparse_of_scheme (sch tail : List Char) (h1 : sch ≠ [])
    (h2 : (sch.headD ' ').isAlpha = true) (h3 : ∀ c ∈ sch, schemeChar c = true)
    (h4 : lowerStr sch = sch) :
    urlparse (sch ++ ':' :: tail) = ⟨sch, (extractNetloc tail).1,
      (extractQuery (extractFragment (extractNetloc tail).2).1).1,
      (extractQuery (extractFragment (extractNetloc tail).2).1).2,
      (extractFragment (extractNetloc tail).2).2⟩ := by
  simp only [urlparse]
  rw [extractScheme_valid sch tail h1 h2 h3 h4]

theorem quoteSafeChar_lt (c : Char) (h : quoteSafeChar c = true) : c.toNat < 256 := by
  unfold quoteSafeChar at h
  simp only [Bool.or_eq_true, decide_eq_true_eq] at h
  rcases h with ((((h | h) | h) | h) | h)
  · unfold Char.isAlphanum at h
    rw [Bool.or_eq_true] at h
    rcases h with h | h
    · unfold Char.isAlpha at h
      rw [Bool.or_eq_true] at h
      rcases h with h | h
      · unfold Char.isUpper at h
        rw [Bool.and_eq_true, decide_eq_true_iff, decide_eq_true_iff] at h
        have h2 : c.toNat ≤ 90 := h.2
        omega
      · unfold Char.isLower at h
        rw [Bool.and_eq_true, decide_eq_true_iff, decide_eq_true_iff] at h
        have h2 : c.toNat ≤ 122 := h.2
        omega
    · unfold Char.isDigit at h
      rw [Bool.and_eq_true, decide_eq_true_iff, decide_eq_true_iff] at h
      have h2 : c.toNat ≤ 57 := h.2
      omega
  · rw [h]
    decide
  · rw [h]
    decide
  · rw [h]
    decide
  · rw [h]
    decide

theorem headD_mem {α : Type} (l : List α) (d : α) (h : l ≠ []) : l.headD d ∈ l := by
  rcases l with _ | ⟨a, t⟩
  · exact absurd rfl h
  · simp

theorem splitOnAmp_sub (l : List Char) : ∀ p ∈ splitOnAmp l, ∀ c ∈ p, c ∈ l := by
  induction l with
  | nil =>
    intro p hp c hc
    simp only [splitOnAmp, List.mem_singleton] at hp
    subst hp
    cases hc
  | cons a rest ih =>
    intro p hp c hc
    unfold splitOnAmp at hp
    by_cases ha : a = '&'
    · rw [if_pos ha] at hp
      rcases List.mem_cons.mp hp with rfl | hp
      · cases hc
      · exact List.mem_cons_of_mem _ (ih p hp c hc)
    · rw [if_neg ha] at hp
      rcases hsp : splitOnAmp rest with _ | ⟨q, qs⟩
      · rw [hsp] at hp
        rw [List.mem_singleton] at hp
        subst hp
        rcases List.mem_cons.mp hc with rfl | hc2
        · simp
        · cases hc2
      · rw [hsp] at hp
        rcases List.mem_cons.mp hp with rfl | hp
        · rcases List.mem_cons.mp hc with rfl | hc2
          · simp
          · exact List.mem_cons_of_mem _ (ih q (by rw [hsp]; simp) c hc2)
        · exact List.mem_cons_of_mem _ (ih p (by rw [hsp]; simp [hp]) c hc)

theorem parseQsl_pred (qs : List Char) (h : ∀ c ∈ qs, c.toNat < 256) :
    ∀ p ∈ parseQsl qs,
      (∀ c ∈ p.1, c.toNat < 256) ∧ (p.2 ≠ [] ∧ ∀ c ∈ p.2, c.toNat < 256) := by
  intro p hp
  unfold parseQsl at hp
  rw [List.mem_filterMap] at hp
  obtain ⟨piece, hpiece, hmap⟩ := hp
  have hpc : ∀ c ∈ piece, c.toNat < 256 :=
    fun c hc => h c (splitOnAmp_sub qs piece hpiece c hc)
  split at hmap
  · cases hmap
  · rename_i nm v heq
    split at hmap
    · cases hmap
    · rename_i hv
      have hp' : p = (unquotePlus nm, unquotePlus v) := by
        injection hmap with h'
        exact h'.symm
      obtain ⟨hdec, _⟩ := splitFirst_some '=' piece nm v heq
      have hnm : ∀ c ∈ nm, c.toNat < 256 := fun c hc => hpc c (by rw [hdec]; simp [hc])
      have hvv : ∀ c ∈ v, c.toNat < 256 := fun c hc => hpc c (by rw [hdec]; simp [hc])
      rw [hp']
      exact ⟨unquotePlus_all_lt nm hnm, unquotePlus_ne_nil v hv, unquotePlus_all_lt v hvv⟩

theorem joinAmp_mem (pieces : List (List Char)) (c : Char) (h : c ∈ joinAmp pieces) :
    c = '&' ∨ ∃ p ∈ pieces, c ∈ p := by
  induction pieces with
  | nil => cases h
  | cons p ps ih =>
    rcases ps with _ | ⟨q, qs⟩
    · exact Or.inr ⟨p, by simp, h⟩
    · rw [show joinAmp (p :: q :: qs) = p ++ '&' :: joinAmp (q :: qs) from rfl] at h
      rcases List.mem_append.mp h with h1 | h1
      · exact Or.inr ⟨p, by simp, h1⟩
      · rcases List.mem_cons.mp h1 with rfl | h2
        · exact Or.inl rfl
        · rcases ih h2 with h3 | ⟨r, hr, hcr⟩
          · exact Or.inl h3
          · exact Or.inr ⟨r, List.mem_cons_of_mem _ hr, hcr⟩

theorem urlencode_no_special (flat : List (List Char × List Char)) :
    ∀ c ∈ urlencode flat, c ≠ '#' ∧ c ≠ '?' := by
  intro c hc
  unfold urlencode at hc
  rcases joinAmp_mem _ c hc with rfl | ⟨p, hp, hcp⟩
  · exact ⟨by decide, by decide⟩
  · rw [List.mem_map] at hp
    obtain ⟨q, _, rfl⟩ := hp
    rcases List.mem_append.mp hcp with h1 | h1
    · have h2 := quoteOutChar_not_special c (quotePlus_all_out q.1 c h1)
      exact ⟨h2.2.2.1, h2.2.2.2⟩
    · rcases List.mem_cons.mp h1 with rfl | h2
      · exact ⟨by decide, by decide⟩
      · have h3 := quoteOutChar_not_special c (quotePlus_all_out q.2 c h2)
        exact ⟨h3.2.2.1, h3.2.2.2⟩

theorem setdefault_of_found (params : List (List Char × List (List Char))) (k : List Char)
    (v : List (List Char)) (h : findParam params k ≠ none) :
    setdefault params k v = params := by
  unfold setdefault
  rw [if_pos]
  rcases hf : findParam params k with _ | q
  · exact absurd hf h
  · by_contra hany
    rw [Bool.not_eq_true] at hany
    have hnone := (findParam_none_iff params k).mpr hany
    rw [hnone] at hf
    cases hf

theorem findParam_map_singleton (l : List (List Char × List Char)) (k : List Char) :
    findParam (l.map (fun p => (p.1, [p.2]))) k
      = (l.find? (fun p => p.1 == k)).map (fun p => (p.1, [p.2])) := by
  unfold findParam
  rw [List.find?_map]
  rfl

theorem flatParams_map_singleton (l : List (List Char × List Char)) :
    flatParams (l.map (fun p => (p.1, [p.2]))) = l := by
  unfold flatParams
  rw [List.map_map]
  have h1 : List.map ((fun q : List Char × List (List Char) => (q.1, q.2.headD [])) ∘
      (fun p : List Char × List Char => (p.1, [p.2]))) l = List.map id l :=
    List.map_congr_left (fun a _ => rfl)
  rw [h1, List.map_id]

theorem UrlParts_update_query (p : UrlParts) (X : List Char) :
    ({ p with query := X }).query = X := rfl

set_option maxHeartbeats 2000000 in
theorem inject_synxis_analysis (ci co cs1 cs2 sch tail : List Char)
    (params1 : List (List Char × List (List Char)))
    (hsch : sch = ("http").data ∨ sch = ("https").data)
    (hascii : ∀ c ∈ sch ++ ':' :: tail, c.toNat < 256)
    (hsx : containsSub (("synxis").data) (lowerStr (urlparse (sch ++ ':' :: tail)).netloc) = true)
    (hci : ci ≠ [] ∧ ∀ c ∈ ci, quoteSafeChar c = true)
    (hco : co ≠ [] ∧ ∀ c ∈ co, quoteSafeChar c = true)
    (hp1 : params1 = setdefault (setdefault (setdefault (setdefault
        (parseQs (urlparse (sch ++ ':' :: tail)).query)
        (("arrive").data) [ci]) (("depart").data) [co])
        (("adult").data) [("2").data]) (("rooms").data) [("1").data]) :
    inject_dates_into_url ci co cs1 cs2 (sch ++ ':' :: tail)
      = urlunparse { urlparse (sch ++ ':' :: tail) with
          query := urlencode (flatParams params1) } ∧
    urlparse (inject_dates_into_url ci co cs1 cs2 (sch ++ ':' :: tail))
      = { urlparse (sch ++ ':' :: tail) with query := urlencode (flatParams params1) } ∧
    parseQs (urlparse (inject_dates_into_url ci co cs1 cs2 (sch ++ ':' :: tail))).query
      = (flatParams params1).map (fun p => (p.1, [p.2])) ∧
    parseQsl (urlparse (inject_dates_into_url ci co cs1 cs2 (sch ++ ':' :: tail))).query
      = flatParams params1 ∧
    ((flatParams params1).map Prod.fst).Nodup ∧
    inject_dates_into_url ci co cs1 cs2
        (inject_dates_into_url ci co cs1 cs2 (sch ++ ':' :: tail))
      = inject_dates_into_url ci co cs1 cs2 (sch ++ ':' :: tail) := by
  subst hp1
  have hs1 : sch ≠ [] := by
    rcases hsch with rfl | rfl <;> decide
  have hs2 : (sch.headD ' ').isAlpha = true := by
    rcases hsch with rfl | rfl <;> decide
  have hs3 : ∀ c ∈ sch, schemeChar c = true := by
    rcases hsch with rfl | rfl <;> decide
  have hs4 : lowerStr sch = sch := by
    rcases hsch with rfl | rfl <;> decide
  have hwf := urlparse_wf (sch ++ ':' :: tail)
  have hschemeEq : (urlparse (sch ++ ':' :: tail)).scheme = sch := by
    rw [urlparse_of_scheme sch tail hs1 hs2 hs3 hs4]
  have hpre : hasPre (("http").data) (sch ++ ':' :: tail) = true := by
    rcases hsch with rfl | rfl
    · exact hasPre_append _ _
    · have h : ("https").data ++ ':' :: tail = ("http").data ++ 's' :: ':' :: tail := rfl
      rw [h]
      exact hasPre_append _ _
  have hguard : ¬(sch ++ ':' :: tail = [] ∨ hasPre (("http").data) (sch ++ ':' :: tail) = false) := by
    intro hcon
    rcases hcon with h | h
    · rw [h] at hpre
      exact absurd hpre (by decide)
    · rw [hpre] at h
      cases h
  have h1 : inject_dates_into_url ci co cs1 cs2 (sch ++ ':' :: tail)
      = urlunparse { urlparse (sch ++ ':' :: tail) with
          query := urlencode (flatParams (setdefault (setdefault (setdefault (setdefault
            (parseQs (urlparse (sch ++ ':' :: tail)).query)
            (("arrive").data) [ci]) (("depart").data) [co])
            (("adult").data) [("2").data]) (("rooms").data) [("1").data])) } := by
    unfold inject_dates_into_url
    rw [if_neg hguard]
    simp only [hsx, Bool.true_or, if_true]
  have hq256 : ∀ c ∈ (urlparse (sch ++ ':' :: tail)).query, c.toNat < 256 :=
    fun c hc => hascii c (hwf.2.2.2.1 c hc)
  have hP0 := groupParams_pred (fun k => ∀ c ∈ k, c.toNat < 256)
    (fun v => v ≠ [] ∧ ∀ c ∈ v, c.toNat < 256)
    (parseQsl (urlparse (sch ++ ':' :: tail)).query)
    (parseQsl_pred _ hq256)
  have hvci : ([ci] : List (List Char)) ≠ [] ∧ ∀ w ∈ [ci], w ≠ [] ∧ ∀ c ∈ w, c.toNat < 256 := by
    refine ⟨by simp, ?_⟩
    intro w hw
    rw [List.mem_singleton] at hw
    subst hw
    exact ⟨hci.1, fun c hc => quoteSafeChar_lt c (hci.2 c hc)⟩
  have hvco : ([co] : List (List Char)) ≠ [] ∧ ∀ w ∈ [co], w ≠ [] ∧ ∀ c ∈ w, c.toNat < 256 := by
    refine ⟨by simp, ?_⟩
    intro w hw
    rw [List.mem_singleton] at hw
    subst hw
    exact ⟨hco.1, fun c hc => quoteSafeChar_lt c (hco.2 c hc)⟩
  have hv2 : ([("2").data] : List (List Char)) ≠ [] ∧
      ∀ w ∈ ([("2").data] : List (List Char)), w ≠ [] ∧ ∀ c ∈ w, c.toNat < 256 := by
    refine ⟨by simp, ?_⟩
    intro w hw
    rw [List.mem_singleton] at hw
    subst hw
    decide
  have hv1 : ([("1").data] : List (List Char)) ≠ [] ∧
      ∀ w ∈ ([("1").data] : List (List Char)), w ≠ [] ∧ ∀ c ∈ w, c.toNat < 256 := by
    refine ⟨by simp, ?_⟩
    intro w hw
    rw [List.mem_singleton] at hw
    subst hw
    decide
  have hPd1 := setdefault_pred (fun k => ∀ c ∈ k, c.toNat < 256)
    (fun v => v ≠ [] ∧ ∀ c ∈ v, c.toNat < 256) _ (("arrive").data) [ci] hP0 (by decide) hvci
  have hPd2 := setdefault_pred (fun k => ∀ c ∈ k, c.toNat < 256)
    (fun v => v ≠ [] ∧ ∀ c ∈ v, c.toNat < 256) _ (("depart").data) [co] hPd1 (by decide) hvco
  have hPd3 := setdefault_pred (fun k => ∀ c ∈ k, c.toNat < 256)
    (fun v => v ≠ [] ∧ ∀ c ∈ v, c.toNat < 256) _ (("adult").data) [("2").data] hPd2
    (by decide) hv2
  have hP1 := setdefault_pred (fun k => ∀ c ∈ k, c.toNat < 256)
    (fun v => v ≠ [] ∧ ∀ c ∈ v, c.toNat < 256) _ (("rooms").data) [("1").data] hPd3
    (by decide) hv1
  have hflat : ∀ p ∈ flatParams (setdefault (setdefault (setdefault (setdefault
      (parseQs (urlparse (sch ++ ':' :: tail)).query)
      (("arrive").data) [ci]) (("depart").data) [co])
      (("adult").data) [("2").data]) (("rooms").data) [("1").data]),
      (∀ c ∈ p.1, c.toNat < 256) ∧ (∀ c ∈ p.2, c.toNat < 256) ∧ p.2 ≠ [] := by
    intro p hp
    unfold flatParams at hp
    rw [List.mem_map] at hp
    obtain ⟨q, hq, rfl⟩ := hp
    obtain ⟨hk, hne, hv⟩ := hP1 q hq
    have hmem := headD_mem q.2 [] hne
    exact ⟨hk, (hv _ hmem).2, (hv _ hmem).1⟩
  have hnodup : ((setdefault (setdefault (setdefault (setdefault
      (parseQs (urlparse (sch ++ ':' :: tail)).query)
      (("arrive").data) [ci]) (("depart").data) [co])
      (("adult").data) [("2").data]) (("rooms").data) [("1").data]).map Prod.fst).Nodup := by
    apply setdefault_keys_nodup
    apply setdefault_keys_nodup
    apply setdefault_keys_nodup
    apply setdefault_keys_nodup
    exact groupParams_keys_nodup _
  have hflatkeys : ((flatParams (setdefault (setdefault (setdefault (setdefault
      (parseQs (urlparse (sch ++ ':' :: tail)).query)
      (("arrive").data) [ci]) (("depart").data) [co])
      (("adult").data) [("2").data]) (("rooms").data) [("1").data])).map Prod.fst).Nodup := by
    rw [flatParams_keys]
    exact hnodup
  have hroundq := parseQsl_urlencode _ hflat
  have hwfq : ∀ c ∈ urlencode (flatParams (setdefault (setdefault (setdefault (setdefault
      (parseQs (urlparse (sch ++ ':' :: tail)).query)
      (("arrive").data) [ci]) (("depart").data) [co])
      (("adult").data) [("2").data]) (("rooms").data) [("1").data])), c ≠ '#' :=
    fun c hc => (urlencode_no_special _ c hc).1
  have h2 : urlparse (inject_dates_into_url ci co cs1 cs2 (sch ++ ':' :: tail))
      = { urlparse (sch ++ ':' :: tail) with
          query := urlencode (flatParams (setdefault (setdefault (setdefault (setdefault
            (parseQs (urlparse (sch ++ ':' :: tail)).query)
            (("arrive").data) [ci]) (("depart").data) [co])
            (("adult").data) [("2").data]) (("rooms").data) [("1").data])) } := by
    rw [h1]
    generalize hXq : urlencode (flatParams (setdefault (setdefault (setdefault (setdefault
      (parseQs (urlparse (sch ++ ':' :: tail)).query)
      (("arrive").data) [ci]) (("depart").data) [co])
      (("adult").data) [("2").data]) (("rooms").data) [("1").data])) = X
    have hwfq2 : ∀ c ∈ X, c ≠ '#' := by
      rw [← hXq]
      exact hwfq
    apply urlparse_urlunparse
    · show (urlparse (sch ++ ':' :: tail)).scheme ≠ []
      rw [hschemeEq]
      exact hs1
    · show ((urlparse (sch ++ ':' :: tail)).scheme.headD ' ').isAlpha = true
      rw [hschemeEq]
      exact hs2
    · show ∀ c ∈ (urlparse (sch ++ ':' :: tail)).scheme, schemeChar c = true
      rw [hschemeEq]
      exact hs3
    · show lowerStr (urlparse (sch ++ ':' :: tail)).scheme = _
      rw [hschemeEq]
      exact hs4
    · exact hwf.1
    · exact hwf.2.1
    · exact hwfq2
    · exact hwf.2.2.2.2
  have h3 : parseQs (urlparse (inject_dates_into_url ci co cs1 cs2 (sch ++ ':' :: tail))).query
      = (flatParams (setdefault (setdefault (setdefault (setdefault
          (parseQs (urlparse (sch ++ ':' :: tail)).query)
          (("arrive").data) [ci]) (("depart").data) [co])
          (("adult").data) [("2").data]) (("rooms").data) [("1").data])).map
        (fun p => (p.1, [p.2])) := by
    rw [h2, UrlParts_update_query]
    generalize hP0 : parseQs (urlparse (sch ++ ':' :: tail)).query = P0 at hroundq hflatkeys ⊢
    unfold parseQs
    rw [hroundq]
    exact groupParams_of_nodup _ hflatkeys
  have h3b : parseQsl (urlparse (inject_dates_into_url ci co cs1 cs2 (sch ++ ':' :: tail))).query
      = flatParams (setdefault (setdefault (setdefault (setdefault
          (parseQs (urlparse (sch ++ ':' :: tail)).query)
          (("arrive").data) [ci]) (("depart").data) [co])
          (("adult").data) [("2").data]) (("rooms").data) [("1").data]) := by
    rw [h2, UrlParts_update_query]
    exact hroundq
  refine ⟨h1, h2, h3, h3b, hflatkeys, ?_⟩
  have houtpre : hasPre (("http").data)
      (inject_dates_into_url ci co cs1 cs2 (sch ++ ':' :: tail)) = true := by
    rw [h1]
    generalize urlencode (flatParams (setdefault (setdefault (setdefault (setdefault
      (parseQs (urlparse (sch ++ ':' :: tail)).query)
      (("arrive").data) [ci]) (("depart").data) [co])
      (("adult").data) [("2").data]) (("rooms").data) [("1").data])) = X
    have hds1 : ({ urlparse (sch ++ ':' :: tail) with query := X } : UrlParts).scheme ≠ [] := by
      show (urlparse (sch ++ ':' :: tail)).scheme ≠ []
      rw [hschemeEq]
      exact hs1
    have hdpn : ({ urlparse (sch ++ ':' :: tail) with query := X } : UrlParts).netloc ≠ [] →
        ({ urlparse (sch ++ ':' :: tail) with query := X } : UrlParts).path = [] ∨
        ({ urlparse (sch ++ ':' :: tail) with query := X } : UrlParts).path.take 1 = ['/'] :=
      hwf.2.2.2.2
    rw [urlunparse_decompose _ hds1 hdpn]
    show hasPre (("http").data) ((urlparse (sch ++ ':' :: tail)).scheme ++ _) = true
    rw [hschemeEq]
    rcases hsch with rfl | rfl
    · exact hasPre_append _ _
    · exact hasPre_append _ _
  have hguard2 : ¬(inject_dates_into_url ci co cs1 cs2 (sch ++ ':' :: tail) = [] ∨
      hasPre (("http").data) (inject_dates_into_url ci co cs1 cs2 (sch ++ ':' :: tail)) = false) := by
    intro hcon
    rcases hcon with h | h
    · rw [h] at houtpre
      exact absurd houtpre (by decide)
    · rw [houtpre] at h
      cases h
  have hsx2 : containsSub (("synxis").data)
      (lowerStr (urlparse (inject_dates_into_url ci co cs1 cs2 (sch ++ ':' :: tail))).netloc)
      = true := by
    rw [h2]
    exact hsx
  have hfind : ∀ k, k = ("arrive").data ∨ k = ("depart").data ∨
      k = ("adult").data ∨ k = ("rooms").data →
      findParam ((flatParams (setdefault (setdefault (setdefault (setdefault
        (parseQs (urlparse (sch ++ ':' :: tail)).query)
        (("arrive").data) [ci]) (("depart").data) [co])
        (("adult").data) [("2").data]) (("rooms").data) [("1").data])).map
        (fun p => (p.1, [p.2]))) k ≠ none := by
    intro k hk
    rw [findParam_map_singleton]
    have hfp : (findParam (setdefault (setdefault (setdefault (setdefault
        (parseQs (urlparse (sch ++ ':' :: tail)).query)
        (("arrive").data) [ci]) (("depart").data) [co])
        (("adult").data) [("2").data]) (("rooms").data) [("1").data]) k).isSome = true := by
      rcases hk with rfl | rfl | rfl | rfl
      · rcases Option.isSome_iff_exists.mp (setdefault_mem_key
          (parseQs (urlparse (sch ++ ':' :: tail)).query) (("arrive").data) [ci]) with ⟨q, hq⟩
        rw [setdefault_findParam_of_some _ _ _ _ _ (setdefault_findParam_of_some _ _ _ _ _
          (setdefault_findParam_of_some _ _ _ _ _ hq))]
        rfl
      · rcases Option.isSome_iff_exists.mp (setdefault_mem_key
          (setdefault (parseQs (urlparse (sch ++ ':' :: tail)).query)
            (("arrive").data) [ci]) (("depart").data) [co]) with ⟨q, hq⟩
        rw [setdefault_findParam_of_some _ _ _ _ _ (setdefault_findParam_of_some _ _ _ _ _ hq)]
        rfl
      · rcases Option.isSome_iff_exists.mp (setdefault_mem_key
          (setdefault (setdefault (parseQs (urlparse (sch ++ ':' :: tail)).query)
            (("arrive").data) [ci]) (("depart").data) [co]) (("adult").data) [("2").data])
          with ⟨q, hq⟩
        rw [setdefault_findParam_of_some _ _ _ _ _ hq]
        rfl
      · exact setdefault_mem_key _ _ _
    rw [flatParams_findParam]
    rcases hfp2 : findParam (setdefault (setdefault (setdefault (setdefault
        (parseQs (urlparse (sch ++ ':' :: tail)).query)
        (("arrive").data) [ci]) (("depart").data) [co])
        (("adult").data) [("2").data]) (("rooms").data) [("1").data]) k with _ | q
    · rw [hfp2] at hfp
      cases hfp
    · simp
  have hnoop : setdefault (setdefault (setdefault (setdefault
      ((flatParams (setdefault (setdefault (setdefault (setdefault
        (parseQs (urlparse (sch ++ ':' :: tail)).query)
        (("arrive").data) [ci]) (("depart").data) [co])
        (("adult").data) [("2").data]) (("rooms").data) [("1").data])).map
        (fun p => (p.1, [p.2])))
      (("arrive").data) [ci]) (("depart").data) [co])
      (("adult").data) [("2").data]) (("rooms").data) [("1").data]
      = (flatParams (setdefault (setdefault (setdefault (setdefault
        (parseQs (urlparse (sch ++ ':' :: tail)).query)
        (("arrive").data) [ci]) (("depart").data) [co])
        (("adult").data) [("2").data]) (("rooms").data) [("1").data])).map
        (fun p => (p.1, [p.2])) := by
    rw [setdefault_of_found _ _ _ (hfind _ (Or.inl rfl))]
    rw [setdefault_of_found _ _ _ (hfind _ (Or.inr (Or.inl rfl)))]
    rw [setdefault_of_found _ _ _ (hfind _ (Or.inr (Or.inr (Or.inl rfl))))]
    rw [setdefault_of_found _ _ _ (hfind _ (Or.inr (Or.inr (Or.inr rfl))))]
  show inject_dates_into_url ci co cs1 cs2 (inject_dates_into_url ci co cs1 cs2 (sch ++ ':' :: tail))
      = inject_dates_into_url ci co cs1 cs2 (sch ++ ':' :: tail)
  generalize hout : inject_dates_into_url ci co cs1 cs2 (sch ++ ':' :: tail) = OUT
    at h2 h3 houtpre hguard2 hsx2 ⊢
  unfold inject_dates_into_url
  rw [if_neg hguard2]
  simp only [hsx2, Bool.true_or, if_true]
  rw [h3, hnoop, flatParams_map_singleton, h2, ← hout, h1]

theorem setdefault_findParam_elim (params : List (List Char × List (List Char)))
    (k : List Char) (v : List (List Char)) :
    findParam (setdefault params k v) k
      = some ((findParam params k).elim (k, v) id) := by
  rcases hf : findParam params k with _ | q
  · rw [setdefault_findParam_self_of_none _ _ _ hf]
    rfl
  · rw [setdefault_findParam_of_some _ _ _ _ _ hf]
    rfl

theorem findParam_key_eq (params : List (List Char × List (List Char))) (k : List Char)
    (q : List Char × List (List Char)) (h : findParam params k = some q) :
    q ∈ params ∧ q.1 = k := by
  unfold findParam at h
  refine ⟨List.mem_of_find?_eq_some h, ?_⟩
  have h2 := List.find?_some h
  simpa using h2

theorem count_eq_one_of_nodup_mem (k : List Char) (L : List (List Char))
    (hnd : L.Nodup) (hmem : k ∈ L) : L.count k = 1 := by
  induction L with
  | nil => cases hmem
  | cons a t ih =>
    obtain ⟨hna, hnt⟩ := List.nodup_cons.mp hnd
    rw [List.count_cons]
    rcases List.mem_cons.mp hmem with rfl | hmem2
    · have hc0 : t.count k = 0 := List.count_eq_zero.mpr hna
      rw [hc0]
      simp
    · have hak : (a == k) = false := by
        rw [beq_eq_false_iff_ne]
        intro h
        exact hna (h ▸ hmem2)
      rw [ih hnt hmem2, hak]
      simp

set_option maxHeartbeats 2000000 in
/-- C7: on an http or https URL whose host contains `synxis`,
`_inject_dates_into_url` leaves each of the four SynXis parameters at its
preexisting first value when the parameter was already present and
otherwise injects the default (`arrive` = today+14, `depart` = today+15,
`adult` = `2`, `rooms` = `1`); each of the four names occurs exactly once
in the rewritten query; and the rewrite is idempotent.  (The original
claim is corrected: the guard returns non-`http` URLs unchanged, and
`adult=2`/`rooms=1` are `setdefault` defaults, not guaranteed values.) -/
theorem inject_dates_synxis_spec (ci co cs1 cs2 sch tail : List Char)
    (hsch : sch = ("http").data ∨ sch = ("https").data)
    (hascii : ∀ c ∈ sch ++ ':' :: tail, c.toNat < 256)
    (hsx : containsSub (("synxis").data)
      (lowerStr (urlparse (sch ++ ':' :: tail)).netloc) = true)
    (hci : ci ≠ [] ∧ ∀ c ∈ ci, quoteSafeChar c = true)
    (hco : co ≠ [] ∧ ∀ c ∈ co, quoteSafeChar c = true) :
    firstParamValue (inject_dates_into_url ci co cs1 cs2 (sch ++ ':' :: tail)) (("arrive").data)
      = some ((findParam (queryParams (sch ++ ':' :: tail)) (("arrive").data)).elim ci
          (fun q => q.2.headD [])) ∧
    firstParamValue (inject_dates_into_url ci co cs1 cs2 (sch ++ ':' :: tail)) (("depart").data)
      = some ((findParam (queryParams (sch ++ ':' :: tail)) (("depart").data)).elim co
          (fun q => q.2.headD [])) ∧
    firstParamValue (inject_dates_into_url ci co cs1 cs2 (sch ++ ':' :: tail)) (("adult").data)
      = some ((findParam (queryParams (sch ++ ':' :: tail)) (("adult").data)).elim (("2").data)
          (fun q => q.2.headD [])) ∧
    firstParamValue (inject_dates_into_url ci co cs1 cs2 (sch ++ ':' :: tail)) (("rooms").data)
      = some ((findParam (queryParams (sch ++ ':' :: tail)) (("rooms").data)).elim (("1").data)
          (fun q => q.2.headD [])) ∧
    (∀ k, (k = ("arrive").data ∨ k = ("depart").data ∨
        k = ("adult").data ∨ k = ("rooms").data) →
      ((parseQsl (urlparse (inject_dates_into_url ci co cs1 cs2 (sch ++ ':' :: tail))).query).map Prod.fst).count k = 1) ∧
    inject_dates_into_url ci co cs1 cs2 (inject_dates_into_url ci co cs1 cs2 (sch ++ ':' :: tail)) = inject_dates_into_url ci co cs1 cs2 (sch ++ ':' :: tail) := by
  obtain ⟨h1, h2, h3, h3b, hnd, h4⟩ :=
    inject_synxis_analysis ci co cs1 cs2 sch tail _ hsch hascii hsx hci hco rfl
  have hfpv : ∀ k : List Char, firstParamValue (inject_dates_into_url ci co cs1 cs2 (sch ++ ':' :: tail)) k
      = (findParam (setdefault (setdefault (setdefault (setdefault
      (parseQs (urlparse (sch ++ ':' :: tail)).query)
      (("arrive").data) [ci]) (("depart").data) [co])
      (("adult").data) [("2").data]) (("rooms").data) [("1").data]) k).map (fun q => q.2.headD []) := by
    intro k
    unfold firstParamValue queryParams
    rw [h3, findParam_map_singleton, flatParams_findParam]
    rcases hf : findParam (setdefault (setdefault (setdefault (setdefault
      (parseQs (urlparse (sch ++ ':' :: tail)).query)
      (("arrive").data) [ci]) (("depart").data) [co])
      (("adult").data) [("2").data]) (("rooms").data) [("1").data]) k with _ | q
    · rfl
    · rfl
  have harrfp : findParam (setdefault (setdefault (setdefault (setdefault
      (parseQs (urlparse (sch ++ ':' :: tail)).query)
      (("arrive").data) [ci]) (("depart").data) [co])
      (("adult").data) [("2").data]) (("rooms").data) [("1").data]) (("arrive").data)
      = some ((findParam (parseQs (urlparse (sch ++ ':' :: tail)).query) (("arrive").data)).elim ((("arrive").data), [ci]) id) := by
    rw [setdefault_findParam_other _ _ _ _ (by decide),
        setdefault_findParam_other _ _ _ _ (by decide),
        setdefault_findParam_other _ _ _ _ (by decide),
        setdefault_findParam_elim]
  have hdepfp : findParam (setdefault (setdefault (setdefault (setdefault
      (parseQs (urlparse (sch ++ ':' :: tail)).query)
      (("arrive").data) [ci]) (("depart").data) [co])
      (("adult").data) [("2").data]) (("rooms").data) [("1").data]) (("depart").data)
      = some ((findParam (parseQs (urlparse (sch ++ ':' :: tail)).query) (("depart").data)).elim ((("depart").data), [co]) id) := by
    rw [setdefault_findParam_other _ _ _ _ (by decide),
        setdefault_findParam_other _ _ _ _ (by decide),
        setdefault_findParam_elim,
        setdefault_findParam_other _ _ _ _ (by decide)]
  have hadufp : findParam (setdefault (setdefault (setdefault (setdefault
      (parseQs (urlparse (sch ++ ':' :: tail)).query)
      (("arrive").data) [ci]) (("depart").data) [co])
      (("adult").data) [("2").data]) (("rooms").data) [("1").data]) (("adult").data)
      = some ((findParam (parseQs (urlparse (sch ++ ':' :: tail)).query) (("adult").data)).elim ((("adult").data), [("2").data]) id) := by
    rw [setdefault_findParam_other _ _ _ _ (by decide),
        setdefault_findParam_elim,
        setdefault_findParam_other _ _ _ _ (by decide),
        setdefault_findParam_other _ _ _ _ (by decide)]
  have hroofp : findParam (setdefault (setdefault (setdefault (setdefault
      (parseQs (urlparse (sch ++ ':' :: tail)).query)
      (("arrive").data) [ci]) (("depart").data) [co])
      (("adult").data) [("2").data]) (("rooms").data) [("1").data]) (("rooms").data)
      = some ((findParam (parseQs (urlparse (sch ++ ':' :: tail)).query) (("rooms").data)).elim ((("rooms").data), [("1").data]) id) := by
    rw [setdefault_findParam_elim,
        setdefault_findParam_other _ _ _ _ (by decide),
        setdefault_findParam_other _ _ _ _ (by decide),
        setdefault_findParam_other _ _ _ _ (by decide)]
  refine ⟨?_, ?_, ?_, ?_, ?_, h4⟩
  · rw [hfpv, harrfp]
    show _ = some ((findParam (parseQs (urlparse (sch ++ ':' :: tail)).query) (("arrive").data)).elim ci (fun q => q.2.headD []))
    rcases hf0 : findParam (parseQs (urlparse (sch ++ ':' :: tail)).query) (("arrive").data) with _ | q
    · rfl
    · rfl
  · rw [hfpv, hdepfp]
    show _ = some ((findParam (parseQs (urlparse (sch ++ ':' :: tail)).query) (("depart").data)).elim co (fun q => q.2.headD []))
    rcases hf0 : findParam (parseQs (urlparse (sch ++ ':' :: tail)).query) (("depart").data) with _ | q
    · rfl
    · rfl
  · rw [hfpv, hadufp]
    show _ = some ((findParam (parseQs (urlparse (sch ++ ':' :: tail)).query) (("adult").data)).elim (("2").data) (fun q => q.2.headD []))
    rcases hf0 : findParam (parseQs (urlparse (sch ++ ':' :: tail)).query) (("adult").data) with _ | q
    · rfl
    · rfl
  · rw [hfpv, hroofp]
    show _ = some ((findParam (parseQs (urlparse (sch ++ ':' :: tail)).query) (("rooms").data)).elim (("1").data) (fun q => q.2.headD []))
    rcases hf0 : findParam (parseQs (urlparse (sch ++ ':' :: tail)).query) (("rooms").data) with _ | q
    · rfl
    · rfl
  · intro k hk
    rw [h3b]
    have hsomek : ∃ q, findParam (setdefault (setdefault (setdefault (setdefault
      (parseQs (urlparse (sch ++ ':' :: tail)).query)
      (("arrive").data) [ci]) (("depart").data) [co])
      (("adult").data) [("2").data]) (("rooms").data) [("1").data]) k = some q := by
      rcases hk with rfl | rfl | rfl | rfl
      · exact ⟨_, harrfp⟩
      · exact ⟨_, hdepfp⟩
      · exact ⟨_, hadufp⟩
      · exact ⟨_, hroofp⟩
    obtain ⟨q, hq⟩ := hsomek
    obtain ⟨hqmem, hqkey⟩ := findParam_key_eq _ _ _ hq
    have hmem : k ∈ (flatParams (setdefault (setdefault (setdefault (setdefault
      (parseQs (urlparse (sch ++ ':' :: tail)).query)
      (("arrive").data) [ci]) (("depart").data) [co])
      (("adult").data) [("2").data]) (("rooms").data) [("1").data])).map Prod.fst := by
      rw [flatParams_keys]
      exact List.mem_map.mpr ⟨q, hqmem, hqkey⟩
    generalize hL : (flatParams (setdefault (setdefault (setdefault (setdefault
      (parseQs (urlparse (sch ++ ':' :: tail)).query)
      (("arrive").data) [ci]) (("depart").data) [co])
      (("adult").data) [("2").data]) (("rooms").data) [("1").data])).map Prod.fst = L
      at hnd hmem ⊢
    exact count_eq_one_of_nodup_mem k L hnd hmem

/-- C7 witness: at the claim's own example URL with concrete dates, the
theorem yields `arrive=2026-10-26` (the parameter was absent) and the
rewrite is idempotent. -/
theorem inject_dates_synxis_spec_witness :
    firstParamValue (inject_dates_into_url (("2026-10-26").data) (("2026-10-27").data)
        (("10/26/2026").data) (("10/27/2026").data)
        (("https").data ++ ':' :: ("//be.synxis.com/?chain=123").data)) (("arrive").data)
      = some (("2026-10-26").data) ∧
    inject_dates_into_url (("2026-10-26").data) (("2026-10-27").data)
        (("10/26/2026").data) (("10/27/2026").data)
        (inject_dates_into_url (("2026-10-26").data) (("2026-10-27").data)
          (("10/26/2026").data) (("10/27/2026").data)
          (("https").data ++ ':' :: ("//be.synxis.com/?chain=123").data))
      = inject_dates_into_url (("2026-10-26").data) (("2026-10-27").data)
          (("10/26/2026").data) (("10/27/2026").data)
          (("https").data ++ ':' :: ("//be.synxis.com/?chain=123").data) := by
  have h := inject_dates_synxis_spec (("2026-10-26").data) (("2026-10-27").data)
    (("10/26/2026").data) (("10/27/2026").data) (("https").data)
    (("//be.synxis.com/?chain=123").data) (Or.inr rfl) (by decide) (by decide)
    (by decide) (by decide)
  refine ⟨?_, h.2.2.2.2.2⟩
  rw [h.1]
  decide

/-- C7 counterexample: the claim as frozen fails on the code — a URL whose
host contains `synxis` but whose scheme is not http(s) is returned
unchanged with no `arrive` parameter at all, and a preexisting `adult=3`
is kept rather than set to `2`. -/
theorem inject_dates_synxis_counterexample :
    inject_dates_into_url (("2026-10-26").data) (("2026-10-27").data) (("10/26/2026").data)
        (("10/27/2026").data) (("ftp://be.synxis.com/").data) = ("ftp://be.synxis.com/").data ∧
    containsSub (("synxis").data)
      (lowerStr (urlparse (("ftp://be.synxis.com/").data)).netloc) = true ∧
    firstParamValue (inject_dates_into_url (("2026-10-26").data) (("2026-10-27").data)
        (("10/26/2026").data) (("10/27/2026").data) (("ftp://be.synxis.com/").data))
      (("arrive").data) = none ∧
    containsSub (("synxis").data)
      (lowerStr (urlparse (("https://be.synxis.com/?adult=3").data)).netloc) = true ∧
    firstParamValue (inject_dates_into_url (("2026-10-26").data) (("2026-10-27").data)
        (("10/26/2026").data) (("10/27/2026").data) (("https://be.synxis.com/?adult=3").data))
      (("adult").data) = some (("3").data) := by
  decide
